import Mathlib

attribute [local semireducible] Rat.add Rat.mul Rat.sub Rat.inv Rat.ofScientific

set_option maxRecDepth 100000

/-!
Verification development for the `gem` color library.

The development shallowly embeds the crate's scalar-conversion and packed
bit-field code:

* machine integers (`u8`, `u16`) become `ℕ` with explicit masking/mod where
  the Rust code can truncate;
* IEEE-754 floats (`f32` / `f64`) become `GFloat`, an exact model carrying a
  rational payload plus NaN and signed infinities, with arithmetic defined by
  rounding the exact rational result to the format's grid
  (round-to-nearest, ties-to-even), which is the IEEE-754 default mode used
  by Rust float arithmetic;
* the two zeros `0.0`/`-0.0` are collapsed to the single rational `0`; the
  code under verification observes floats only through IEEE comparisons and
  exact arithmetic, for which the two zeros are indistinguishable.
-/

namespace Gem

/-- Model of an IEEE-754 binary floating point datum: NaN, a signed
infinity, or a finite value represented by its exact rational magnitude. -/
inductive GFloat where
  | nan : GFloat
  | inf (neg : Bool) : GFloat
  | fin (q : ℚ) : GFloat
deriving DecidableEq

/-- Parameters of a binary floating point format: `t` mantissa bits
(24 for `f32`, 53 for `f64`), minimum exponent `emin`, and `emax` such that
the largest finite value is `2^emax - 2^(emax-t)`. -/
structure FloatFmt where
  t : ℕ
  emin : ℤ
  emax : ℤ
deriving DecidableEq

/-- The `f32` format: 24 mantissa bits, exponents down to -126, largest
finite value `2^128 - 2^104`. -/
def f32fmt : FloatFmt := ⟨24, -126, 128⟩

/-- The `f64` format: 53 mantissa bits, exponents down to -1022, largest
finite value `2^1024 - 2^971`. -/
def f64fmt : FloatFmt := ⟨53, -1022, 1024⟩

/-- Largest finite value of a format. -/
def FloatFmt.maxFinite (fmt : FloatFmt) : ℚ := 2 ^ fmt.emax - 2 ^ (fmt.emax - fmt.t)

/-- Fuel-driven floor of log2 on naturals (structural recursion so that the
kernel can evaluate it inside `decide`). -/
def log2fuel : ℕ → ℕ → ℕ
  | 0, _ => 0
  | fuel + 1, n => if n ≤ 1 then 0 else log2fuel fuel (n / 2) + 1

/-- Floor of log2 of a natural number (0 at 0). -/
def natLog2 (n : ℕ) : ℕ := log2fuel n n

/-- Ceiling of log2 of a natural number: least `k` with `n ≤ 2 ^ k`. -/
def natClog2 (n : ℕ) : ℕ := if n ≤ 1 then 0 else natLog2 (n - 1) + 1

/-- Floor of log2 of a positive rational, as an integer. -/
def ratLog2 (q : ℚ) : ℤ :=
  if 1 ≤ q then (natLog2 ⌊q⌋.toNat : ℤ) else -(natClog2 ⌈q⁻¹⌉.toNat : ℤ)

/-- Round a rational to the nearest integer, ties to even. -/
def rne (q : ℚ) : ℤ :=
  let n := ⌊q⌋
  let f := q - n
  if f < 1 / 2 then n
  else if 1 / 2 < f then n + 1
  else if n % 2 = 0 then n else n + 1

/-- Round an exact rational to the format's value set: round to nearest,
ties to even, overflowing to a signed infinity. This is the IEEE-754
default rounding that Rust's float arithmetic uses for every operation. -/
def FloatFmt.flRat (fmt : FloatFmt) (q : ℚ) : GFloat :=
  if q = 0 then .fin 0
  else
    let e : ℤ := max (ratLog2 |q|) fmt.emin
    let s : ℚ := 2 ^ (e - fmt.t + 1)
    let r : ℚ := (rne (q / s) : ℤ) * s
    if fmt.maxFinite < |r| then .inf (decide (q < 0)) else .fin r

/-- IEEE `<` comparison: false whenever either side is NaN. -/
def GFloat.blt : GFloat → GFloat → Bool
  | .fin a, .fin b => decide (a < b)
  | .fin _, .inf nb => !nb
  | .inf na, .fin _ => na
  | .inf na, .inf nb => na && !nb
  | _, _ => false

/-- IEEE `≤` comparison: false whenever either side is NaN. -/
def GFloat.ble : GFloat → GFloat → Bool
  | .fin a, .fin b => decide (a ≤ b)
  | .fin _, .inf nb => !nb
  | .inf na, .fin _ => na
  | .inf na, .inf nb => (na == nb) || (na && !nb)
  | _, _ => false

/-- IEEE `>` comparison. -/
def GFloat.bgt (x y : GFloat) : Bool := y.blt x

/-- IEEE `≥` comparison. -/
def GFloat.bge (x y : GFloat) : Bool := y.ble x

/-- Rust `f32::clamp`/`f64::clamp` from core: two sequential comparisons,
`if self < min then min`, then `if result > max then max`; NaN passes both
comparisons unchanged. -/
def GFloat.clamp (x lo hi : GFloat) : GFloat :=
  let x1 := if x.blt lo then lo else x
  if x1.bgt hi then hi else x1

/-- Float addition: exact rational sum rounded to the format. -/
def GFloat.add (fmt : FloatFmt) : GFloat → GFloat → GFloat
  | .fin a, .fin b => fmt.flRat (a + b)
  | .inf na, .inf nb => if na == nb then .inf na else .nan
  | .inf na, .fin _ => .inf na
  | .fin _, .inf nb => .inf nb
  | _, _ => .nan

/-- Float subtraction: exact rational difference rounded to the format. -/
def GFloat.sub (fmt : FloatFmt) : GFloat → GFloat → GFloat
  | .fin a, .fin b => fmt.flRat (a - b)
  | .inf na, .inf nb => if na == nb then .nan else .inf na
  | .inf na, .fin _ => .inf na
  | .fin _, .inf nb => .inf (!nb)
  | _, _ => .nan

/-- Float multiplication: exact rational product rounded to the format. -/
def GFloat.mul (fmt : FloatFmt) : GFloat → GFloat → GFloat
  | .fin a, .fin b => fmt.flRat (a * b)
  | .inf na, .inf nb => .inf (na != nb)
  | .inf na, .fin b => if b = 0 then .nan else .inf (na != decide (b < 0))
  | .fin a, .inf nb => if a = 0 then .nan else .inf (nb != decide (a < 0))
  | _, _ => .nan

/-- Float division: exact rational quotient rounded to the format. -/
def GFloat.div (fmt : FloatFmt) : GFloat → GFloat → GFloat
  | .fin a, .fin b =>
    if b = 0 then (if a = 0 then .nan else .inf (decide (a < 0))) else fmt.flRat (a / b)
  | .inf na, .fin b => .inf (na != decide (b < 0))
  | .fin _, .inf _ => .fin 0
  | .inf _, .inf _ => .nan
  | _, _ => .nan

/-- Round a rational to the nearest integer, ties away from zero. -/
def roundAwayRat (q : ℚ) : ℤ := if 0 ≤ q then ⌊q + 1 / 2⌋ else -⌊-q + 1 / 2⌋

/-- Rounding to the nearest integral float with ties away from zero: the
documented behavior of Rust `f32::round`/`f64::round` and of libm
`roundf`/`round`. The result of rounding a finite float is always exactly
representable, so no re-rounding step is needed. -/
def GFloat.roundAway : GFloat → GFloat
  | .fin q => .fin (roundAwayRat q)
  | .inf n => .inf n
  | .nan => .nan

/-- Model of `src/math/impl_std.rs` `round_f32` (`value.round()`). -/
def round_f32_std (value : GFloat) : GFloat := value.roundAway

/-- Model of `src/math/impl_libm.rs` `round_f32` (`libm::roundf(value)`). -/
def round_f32_libm (value : GFloat) : GFloat := value.roundAway

/-- Model of `src/math/impl_std.rs` `round_f64` (`value.round()`). -/
def round_f64_std (value : GFloat) : GFloat := value.roundAway

/-- Model of `src/math/impl_libm.rs` `round_f64` (`libm::round(value)`). -/
def round_f64_libm (value : GFloat) : GFloat := value.roundAway

/-- The crate's `math::round_f32` dispatcher (`std` or `libm` backend by
feature; both agree in the model). -/
def round_f32 (value : GFloat) : GFloat := round_f32_std value

/-- The crate's `math::round_f64` dispatcher. -/
def round_f64 (value : GFloat) : GFloat := round_f64_std value

/-- Truncation of a rational toward zero. -/
def truncRat (q : ℚ) : ℤ := if 0 ≤ q then ⌊q⌋ else ⌈q⌉

/-- Rust saturating float-to-unsigned cast (`as u8` / `as u16`): NaN goes
to 0, values are truncated toward zero and clamped to `[0, maxV]`. -/
def castSatNat (maxV : ℕ) : GFloat → ℕ
  | .nan => 0
  | .inf neg => if neg then 0 else maxV
  | .fin q => if q < 0 then 0 else min ⌊q⌋.toNat maxV

/-- Rust saturating float-to-signed cast (`as i32` / `as i64`): NaN goes
to 0, values are truncated toward zero and clamped to `[lo, hi]`. -/
def castSatInt (lo hi : ℤ) : GFloat → ℤ
  | .nan => 0
  | .inf neg => if neg then lo else hi
  | .fin q => max lo (min hi (truncRat q))

/-- Rust `i32 as f32` cast: rounds to the nearest representable value. -/
def i32_to_f32 (n : ℤ) : GFloat := f32fmt.flRat n

/-- Rust `i64 as f64` cast: rounds to the nearest representable value. -/
def i64_to_f64 (n : ℤ) : GFloat := f64fmt.flRat n

/-- Model of `src/internal/math/impl_fallback.rs` `round_f32`:
`if value >= 0.0 then (value + 0.5) as i32 else (value - 0.5) as i32`,
then `int_part as f32`. -/
def fallback_round_f32 (value : GFloat) : GFloat :=
  let int_part : ℤ :=
    if value.bge (.fin 0) then castSatInt (-(2 ^ 31)) (2 ^ 31 - 1) (value.add f32fmt (.fin (1 / 2)))
    else castSatInt (-(2 ^ 31)) (2 ^ 31 - 1) (value.sub f32fmt (.fin (1 / 2)))
  i32_to_f32 int_part

/-- Model of `src/internal/math/impl_fallback.rs` `round_f64`. -/
def fallback_round_f64 (value : GFloat) : GFloat :=
  let int_part : ℤ :=
    if value.bge (.fin 0) then castSatInt (-(2 ^ 63)) (2 ^ 63 - 1) (value.add f64fmt (.fin (1 / 2)))
    else castSatInt (-(2 ^ 63)) (2 ^ 63 - 1) (value.sub f64fmt (.fin (1 / 2)))
  i64_to_f64 int_part

/-! Scalar conversions from `src/scalar.rs`. `u8`/`u16` values are naturals
(callers keep them below 2^8 / 2^16); `u8 -> f32` conversions are exact. -/

/-- Constant `SCALE_U8 = u8::MAX as f32 / u16::MAX as f32`, computed in f32. -/
def SCALE_U8 : GFloat := GFloat.div f32fmt (.fin 255) (.fin 65535)

/-- Constant `SCALE_U16 = u16::MAX as f32 / u8::MAX as f32`, computed in f32. -/
def SCALE_U16 : GFloat := GFloat.div f32fmt (.fin 65535) (.fin 255)

/-- Rust `impl Scalar for u8`, `to_scaled_u8`: identity. -/
def u8_to_scaled_u8 (v : ℕ) : ℕ := v

/-- Rust `impl Scalar for u8`, `to_scaled_u16`:
`math::round_f32(f32::from(*self) * SCALE_U16) as u16`. -/
def u8_to_scaled_u16 (v : ℕ) : ℕ :=
  castSatNat 65535 (round_f32 (GFloat.mul f32fmt (.fin v) SCALE_U16))

/-- Rust `impl Scalar for u8`, `to_normal_f32`: `f32::from(*self) / 255.0`. -/
def u8_to_normal_f32 (v : ℕ) : GFloat := GFloat.div f32fmt (.fin v) (.fin 255)

/-- Rust `impl Scalar for u8`, `to_normal_f64`: `f64::from(*self) / 255.0`. -/
def u8_to_normal_f64 (v : ℕ) : GFloat := GFloat.div f64fmt (.fin v) (.fin 255)

/-- Rust `impl Scalar for u16`, `to_scaled_u8`:
`math::round_f32(f32::from(*self) * SCALE_U8) as u8`. -/
def u16_to_scaled_u8 (v : ℕ) : ℕ :=
  castSatNat 255 (round_f32 (GFloat.mul f32fmt (.fin v) SCALE_U8))

/-- Rust `impl Scalar for u16`, `to_scaled_u16`: identity. -/
def u16_to_scaled_u16 (v : ℕ) : ℕ := v

/-- Rust `impl Scalar for u16`, `to_normal_f32`: `f32::from(*self) / 65535.0`. -/
def u16_to_normal_f32 (v : ℕ) : GFloat := GFloat.div f32fmt (.fin v) (.fin 65535)

/-- Rust `impl Scalar for u16`, `to_normal_f64`: `f64::from(*self) / 65535.0`. -/
def u16_to_normal_f64 (v : ℕ) : GFloat := GFloat.div f64fmt (.fin v) (.fin 65535)

/-- Rust `impl Scalar for f32`, `to_scaled_u8`:
`math::round_f32(self * 255.0) as u8`. -/
def f32_to_scaled_u8 (x : GFloat) : ℕ :=
  castSatNat 255 (round_f32 (GFloat.mul f32fmt x (.fin 255)))

/-- Rust `impl Scalar for f32`, `to_scaled_u16`:
`math::round_f32(self * 65535.0) as u16`. -/
def f32_to_scaled_u16 (x : GFloat) : ℕ :=
  castSatNat 65535 (round_f32 (GFloat.mul f32fmt x (.fin 65535)))

/-- Rust `impl Scalar for f32`, `to_normal_f32`: identity. -/
def f32_to_normal_f32 (x : GFloat) : GFloat := x

/-- Rust `impl Scalar for f32`, `to_normal_f64`: `f64::from(*self)`, an exact
widening conversion. -/
def f32_to_normal_f64 (x : GFloat) : GFloat := x

/-- Rust `impl Scalar for f64`, `to_scaled_u8`:
`math::round_f64(self * 255.0) as u8`. -/
def f64_to_scaled_u8 (x : GFloat) : ℕ :=
  castSatNat 255 (round_f64 (GFloat.mul f64fmt x (.fin 255)))

/-- Rust `impl Scalar for f64`, `to_scaled_u16`:
`math::round_f64(self * 65535.0) as u16`. -/
def f64_to_scaled_u16 (x : GFloat) : ℕ :=
  castSatNat 65535 (round_f64 (GFloat.mul f64fmt x (.fin 65535)))

/-- Rust `impl Scalar for f64`, `to_normal_f32`: `*self as f32`, which rounds
to the nearest f32 (overflow to infinity, NaN preserved). -/
def f64_to_normal_f32 : GFloat → GFloat
  | .fin q => f32fmt.flRat q
  | x => x

/-- Rust `impl Scalar for f64`, `to_normal_f64`: identity. -/
def f64_to_normal_f64 (x : GFloat) : GFloat := x

/-! Intensity conversions from `src/scalar/intensity.rs`. -/

/-- Rust `impl Intensity for u8`, `from_normalized_f32`:
`math::round_f32(value * 255.0) as u8`. -/
def u8_from_normalized_f32 (value : GFloat) : ℕ :=
  castSatNat 255 (round_f32 (GFloat.mul f32fmt value (.fin 255)))

/-- Rust `impl Intensity for u8`, `from_normalized_f64`:
`math::round_f64(value * 255.0) as u8`. -/
def u8_from_normalized_f64 (value : GFloat) : ℕ :=
  castSatNat 255 (round_f64 (GFloat.mul f64fmt value (.fin 255)))

/-- Rust `impl Intensity for u16`, `from_normalized_f32`:
`math::round_f32(value * 65535.0) as u16`. -/
def u16_from_normalized_f32 (value : GFloat) : ℕ :=
  castSatNat 65535 (round_f32 (GFloat.mul f32fmt value (.fin 65535)))

/-- Rust `impl Intensity for u16`, `from_normalized_f64`:
`math::round_f64(value * 65535.0) as u16`. -/
def u16_from_normalized_f64 (value : GFloat) : ℕ :=
  castSatNat 65535 (round_f64 (GFloat.mul f64fmt value (.fin 65535)))

/-- Modelled from the claim for the refinement check of C7: the formula
`round-half-away-from-zero(clamp(v, 0, 1) * MAX) converted to the unsigned
integer width`, written from the claim's words, to be compared with the
source definitions above. -/
def claim_from_normalized (fmt : FloatFmt) (maxV : ℕ) (v : GFloat) : ℕ :=
  castSatNat maxV (GFloat.roundAway (GFloat.mul fmt (v.clamp (.fin 0) (.fin 1)) (.fin maxV)))

/-! Normalized wrappers from `src/scalar/normalize.rs`. -/

/-- Rust `NormF32`: `#[repr(transparent)] struct NormF32(f32)`. -/
structure NormF32 where
  val : GFloat
deriving DecidableEq

/-- Rust `NormF64`. -/
structure NormF64 where
  val : GFloat
deriving DecidableEq

/-- `NormF32::new`: `if value < 0.0 || value > 1.0 then None else Some(Self(value))`. -/
def NormF32.new (value : GFloat) : Option NormF32 :=
  if value.blt (.fin 0) || value.bgt (.fin 1) then none else some ⟨value⟩

/-- `NormF32::new_clamped`: `Self(value.clamp(0.0, 1.0))`. -/
def NormF32.new_clamped (value : GFloat) : NormF32 := ⟨value.clamp (.fin 0) (.fin 1)⟩

/-- `NormF64::new`. -/
def NormF64.new (value : GFloat) : Option NormF64 :=
  if value.blt (.fin 0) || value.bgt (.fin 1) then none else some ⟨value⟩

/-- `NormF64::new_clamped`. -/
def NormF64.new_clamped (value : GFloat) : NormF64 := ⟨value.clamp (.fin 0) (.fin 1)⟩

/-- Modelled from the claim wording of C3/C4: membership of a float in the
closed interval `[0, 1]` under IEEE comparison semantics (false for NaN). -/
def inRange01 (x : GFloat) : Bool := GFloat.ble (.fin 0) x && x.ble (.fin 1)

/-! Packed 16-bit formats, from `src/src/rgb/formats/rgb_565.rs`,
`argb_1555.rs`, `argb_4444.rs` and the macros in `src/src/rgb/macros/`.
The packed word is a `u16` held as a natural below 2^16; getters apply the
`as u8` narrowing (`% 256`) exactly as the macro-generated code does.
Component arguments are `u8` values (naturals below 2^8). -/

/-- Rust `Rgb565`: a packed `u16`, layout `R:15-11 G:10-5 B:4-0`. -/
structure Rgb565 where
  packed : ℕ
deriving DecidableEq

/-- `Rgb565::from_rgb`:
`((r as u16 & 0x1F) << 11) | ((g as u16 & 0x3F) << 5) | (b as u16 & 0x1F)`. -/
def Rgb565.from_rgb (r g b : ℕ) : Rgb565 :=
  ⟨((r &&& 0x1F) <<< 11) ||| ((g &&& 0x3F) <<< 5) ||| (b &&& 0x1F)⟩

/-- `Rgb565` red getter: `((packed >> 11) & 0x1F) as u8`. -/
def Rgb565.red (c : Rgb565) : ℕ := ((c.packed >>> 11) &&& 0x1F) % 256

/-- `Rgb565` green getter: `((packed >> 5) & 0x3F) as u8`. -/
def Rgb565.green (c : Rgb565) : ℕ := ((c.packed >>> 5) &&& 0x3F) % 256

/-- `Rgb565` blue getter: `(packed & 0x1F) as u8`. -/
def Rgb565.blue (c : Rgb565) : ℕ := ((c.packed >>> 0) &&& 0x1F) % 256

/-- `Rgb565::set_red` with the crate's clear constant `0xFFE0`:
`packed = (packed & 0xFFE0) | ((u16::from(value) & 0x1F) << 11)`. -/
def Rgb565.set_red (c : Rgb565) (value : ℕ) : Rgb565 :=
  ⟨(c.packed &&& 0xFFE0) ||| ((value &&& 0x1F) <<< 11)⟩

/-- `Rgb565::set_green` with the crate's clear constant `0xFF9F`. -/
def Rgb565.set_green (c : Rgb565) (value : ℕ) : Rgb565 :=
  ⟨(c.packed &&& 0xFF9F) ||| ((value &&& 0x3F) <<< 5)⟩

/-- `Rgb565::set_blue` with the crate's clear constant `0xFFE0`. -/
def Rgb565.set_blue (c : Rgb565) (value : ℕ) : Rgb565 :=
  ⟨(c.packed &&& 0xFFE0) ||| ((value &&& 0x1F) <<< 0)⟩

/-- Rust `Argb1555`: a packed `u16`, layout `A:15 R:14-10 G:9-5 B:4-0`. -/
structure Argb1555 where
  packed : ℕ
deriving DecidableEq

/-- `Argb1555::from_rgb`:
`0x8000 | ((r as u16 & 0x1F) << 10) | ((g as u16 & 0x1F) << 5) | (b as u16 & 0x1F)`. -/
def Argb1555.from_rgb (r g b : ℕ) : Argb1555 :=
  ⟨0x8000 ||| ((r &&& 0x1F) <<< 10) ||| ((g &&& 0x1F) <<< 5) ||| (b &&& 0x1F)⟩

/-- `Argb1555` red getter (shift 10, mask 0x1F). -/
def Argb1555.red (c : Argb1555) : ℕ := ((c.packed >>> 10) &&& 0x1F) % 256

/-- `Argb1555` green getter (shift 5, mask 0x1F). -/
def Argb1555.green (c : Argb1555) : ℕ := ((c.packed >>> 5) &&& 0x1F) % 256

/-- `Argb1555` blue getter (shift 0, mask 0x1F). -/
def Argb1555.blue (c : Argb1555) : ℕ := ((c.packed >>> 0) &&& 0x1F) % 256

/-- `Argb1555` alpha getter (shift 15, mask 0x01). -/
def Argb1555.alpha (c : Argb1555) : ℕ := ((c.packed >>> 15) &&& 0x01) % 256

/-- `Argb1555::set_red` with the crate's clear constant `0xFFE0`. -/
def Argb1555.set_red (c : Argb1555) (value : ℕ) : Argb1555 :=
  ⟨(c.packed &&& 0xFFE0) ||| ((value &&& 0x1F) <<< 10)⟩

/-- `Argb1555::set_green` with the crate's clear constant `0xFF9F`. -/
def Argb1555.set_green (c : Argb1555) (value : ℕ) : Argb1555 :=
  ⟨(c.packed &&& 0xFF9F) ||| ((value &&& 0x1F) <<< 5)⟩

/-- `Argb1555::set_blue` with the crate's clear constant `0xFFE0`. -/
def Argb1555.set_blue (c : Argb1555) (value : ℕ) : Argb1555 :=
  ⟨(c.packed &&& 0xFFE0) ||| ((value &&& 0x1F) <<< 0)⟩

/-- `Argb1555::set_alpha` with clear constant `0x7FFF` (shift 15, mask 0x01). -/
def Argb1555.set_alpha (c : Argb1555) (value : ℕ) : Argb1555 :=
  ⟨(c.packed &&& 0x7FFF) ||| ((value &&& 0x01) <<< 15)⟩

/-- Rust `Argb4444`: a packed `u16`, layout `A:15-12 R:11-8 G:7-4 B:3-0`. -/
structure Argb4444 where
  packed : ℕ
deriving DecidableEq

/-- `Argb4444::from_argb`. -/
def Argb4444.from_argb (a r g b : ℕ) : Argb4444 :=
  ⟨((a &&& 0x0F) <<< 12) ||| ((r &&& 0x0F) <<< 8) ||| ((g &&& 0x0F) <<< 4) ||| (b &&& 0x0F)⟩

/-- `Argb4444` red getter (shift 8, mask 0x0F). -/
def Argb4444.red (c : Argb4444) : ℕ := ((c.packed >>> 8) &&& 0x0F) % 256

/-- `Argb4444` green getter (shift 4, mask 0x0F). -/
def Argb4444.green (c : Argb4444) : ℕ := ((c.packed >>> 4) &&& 0x0F) % 256

/-- `Argb4444` blue getter (shift 0, mask 0x0F). -/
def Argb4444.blue (c : Argb4444) : ℕ := ((c.packed >>> 0) &&& 0x0F) % 256

/-- `Argb4444` alpha getter (shift 12, mask 0x0F). -/
def Argb4444.alpha (c : Argb4444) : ℕ := ((c.packed >>> 12) &&& 0x0F) % 256

/-- `Argb4444::set_red` with clear constant `0xF0FF`. -/
def Argb4444.set_red (c : Argb4444) (value : ℕ) : Argb4444 :=
  ⟨(c.packed &&& 0xF0FF) ||| ((value &&& 0x0F) <<< 8)⟩

/-- `Argb4444::set_green` with clear constant `0xFF0F`. -/
def Argb4444.set_green (c : Argb4444) (value : ℕ) : Argb4444 :=
  ⟨(c.packed &&& 0xFF0F) ||| ((value &&& 0x0F) <<< 4)⟩

/-- `Argb4444::set_blue` with clear constant `0xFFF0`. -/
def Argb4444.set_blue (c : Argb4444) (value : ℕ) : Argb4444 :=
  ⟨(c.packed &&& 0xFFF0) ||| ((value &&& 0x0F) <<< 0)⟩

/-- `Argb4444::set_alpha` with clear constant `0x0FFF` (shift 12, mask 0x0F). -/
def Argb4444.set_alpha (c : Argb4444) (value : ℕ) : Argb4444 :=
  ⟨(c.packed &&& 0x0FFF) ||| ((value &&& 0x0F) <<< 12)⟩

/-! Composite alpha wrappers, from `src/src/alpha.rs` and
`src/src/rgb/impl_rgba.rs`. The Rust code is generic over an alpha type `A`
(with `Default` and `Intensity`) and a color payload `C` (with `Default` and
the per-component setters); the embedding passes those trait methods as
explicit arguments. -/

/-- Rust `AlphaFirst<A, C>`: alpha stored before the color payload. -/
structure AlphaFirst (A C : Type) where
  alpha : A
  color : C
deriving DecidableEq

/-- Rust `AlphaLast<A, C>`: color payload stored before alpha. -/
structure AlphaLast (A C : Type) where
  color : C
  alpha : A
deriving DecidableEq

/-- `AlphaFirst::new_red` from `impl_rgba.rs`: start from
`Self::default()` (given by `dA`, `dC`), delegate `set_red` to the payload,
then `set_alpha(A::MAX)` (given by `maxA`). -/
def AlphaFirst.new_red {A C T : Type} (dA : A) (dC : C) (maxA : A)
    (setRedC : C → T → C) (value : T) : AlphaFirst A C :=
  let c0 : AlphaFirst A C := ⟨dA, dC⟩
  let c1 : AlphaFirst A C := ⟨c0.alpha, setRedC c0.color value⟩
  ⟨maxA, c1.color⟩

/-- `AlphaFirst::new_green` from `impl_rgba.rs`. -/
def AlphaFirst.new_green {A C T : Type} (dA : A) (dC : C) (maxA : A)
    (setGreenC : C → T → C) (value : T) : AlphaFirst A C :=
  let c0 : AlphaFirst A C := ⟨dA, dC⟩
  let c1 : AlphaFirst A C := ⟨c0.alpha, setGreenC c0.color value⟩
  ⟨maxA, c1.color⟩

/-- `AlphaFirst::new_blue` from `impl_rgba.rs`. -/
def AlphaFirst.new_blue {A C T : Type} (dA : A) (dC : C) (maxA : A)
    (setBlueC : C → T → C) (value : T) : AlphaFirst A C :=
  let c0 : AlphaFirst A C := ⟨dA, dC⟩
  let c1 : AlphaFirst A C := ⟨c0.alpha, setBlueC c0.color value⟩
  ⟨maxA, c1.color⟩

/-- `AlphaLast::new_red` from `impl_rgba.rs`: start from `Self::default()`
and delegate `set_red`; the source has no `set_alpha(A::MAX)` call here (the
`maxA` argument mirrors the trait bound but is unused, exactly as in the
source). -/
def AlphaLast.new_red {A C T : Type} (dA : A) (dC : C) (_maxA : A)
    (setRedC : C → T → C) (value : T) : AlphaLast A C :=
  let c0 : AlphaLast A C := ⟨dC, dA⟩
  ⟨setRedC c0.color value, c0.alpha⟩

/-- `AlphaLast::new_green` from `impl_rgba.rs`: delegates `set_green`, then
`set_alpha(A::MAX)`. -/
def AlphaLast.new_green {A C T : Type} (dA : A) (dC : C) (maxA : A)
    (setGreenC : C → T → C) (value : T) : AlphaLast A C :=
  let c0 : AlphaLast A C := ⟨dC, dA⟩
  let c1 : AlphaLast A C := ⟨setGreenC c0.color value, c0.alpha⟩
  ⟨c1.color, maxA⟩

/-- `AlphaLast::new_blue` from `impl_rgba.rs`: delegates `set_blue`, then
`set_alpha(A::MAX)`. -/
def AlphaLast.new_blue {A C T : Type} (dA : A) (dC : C) (maxA : A)
    (setBlueC : C → T → C) (value : T) : AlphaLast A C :=
  let c0 : AlphaLast A C := ⟨dC, dA⟩
  let c1 : AlphaLast A C := ⟨setBlueC c0.color value, c0.alpha⟩
  ⟨c1.color, maxA⟩

/-- Rust `Rgb<u8>` (`Rgb888`): three `u8` fields. -/
structure Rgb888 where
  r : ℕ
  g : ℕ
  b : ℕ
deriving DecidableEq

/-- `Rgb888::default()`: all components zero. -/
def Rgb888.default : Rgb888 := ⟨0, 0, 0⟩

/-- `Rgb<u8>` `set_red` (field assignment, from `impl_rgb_with_fields`). -/
def Rgb888.set_red (c : Rgb888) (value : ℕ) : Rgb888 := ⟨value, c.g, c.b⟩

/-- `Rgb<u8>` `set_green`. -/
def Rgb888.set_green (c : Rgb888) (value : ℕ) : Rgb888 := ⟨c.r, value, c.b⟩

/-- `Rgb<u8>` `set_blue`. -/
def Rgb888.set_blue (c : Rgb888) (value : ℕ) : Rgb888 := ⟨c.r, c.g, value⟩

/-! Domain enumeration for the round-trip-at-extremes property (C5). -/

/-- The four supported scalar domains. -/
inductive Domain where
  | du8 | du16 | df32 | df64
deriving DecidableEq, Fintype

/-- A scalar value tagged with its domain. -/
inductive SVal where
  | su8 (v : ℕ)
  | su16 (v : ℕ)
  | sf32 (x : GFloat)
  | sf64 (x : GFloat)
deriving DecidableEq

/-- Dispatch of the `Scalar` trait conversions: convert a tagged scalar to
the given target domain using the corresponding source method. -/
def SVal.convertTo : SVal → Domain → SVal
  | .su8 v, .du8 => .su8 (u8_to_scaled_u8 v)
  | .su8 v, .du16 => .su16 (u8_to_scaled_u16 v)
  | .su8 v, .df32 => .sf32 (u8_to_normal_f32 v)
  | .su8 v, .df64 => .sf64 (u8_to_normal_f64 v)
  | .su16 v, .du8 => .su8 (u16_to_scaled_u8 v)
  | .su16 v, .du16 => .su16 (u16_to_scaled_u16 v)
  | .su16 v, .df32 => .sf32 (u16_to_normal_f32 v)
  | .su16 v, .df64 => .sf64 (u16_to_normal_f64 v)
  | .sf32 x, .du8 => .su8 (f32_to_scaled_u8 x)
  | .sf32 x, .du16 => .su16 (f32_to_scaled_u16 x)
  | .sf32 x, .df32 => .sf32 (f32_to_normal_f32 x)
  | .sf32 x, .df64 => .sf64 (f32_to_normal_f64 x)
  | .sf64 x, .du8 => .su8 (f64_to_scaled_u8 x)
  | .sf64 x, .du16 => .su16 (f64_to_scaled_u16 x)
  | .sf64 x, .df32 => .sf32 (f64_to_normal_f32 x)
  | .sf64 x, .df64 => .sf64 (f64_to_normal_f64 x)

/-- MIN of each domain (0 for the integer widths, 0.0 for the normalized
float domains). -/
def Domain.minVal : Domain → SVal
  | .du8 => .su8 0
  | .du16 => .su16 0
  | .df32 => .sf32 (.fin 0)
  | .df64 => .sf64 (.fin 0)

/-- MAX of each domain (255, 65535, 1.0, 1.0). -/
def Domain.maxVal : Domain → SVal
  | .du8 => .su8 255
  | .du16 => .su16 65535
  | .df32 => .sf32 (.fin 1)
  | .df64 => .sf64 (.fin 1)

/-! Helper lemmas about the float model. -/

theorem log2fuel_spec (fuel : ℕ) : ∀ n : ℕ, 1 ≤ n → n ≤ fuel →
    2 ^ log2fuel fuel n ≤ n ∧ n < 2 ^ (log2fuel fuel n + 1) := by
  induction fuel with
  | zero => intro n h1 h2; omega
  | succ fuel ih =>
    intro n h1 h2
    by_cases hn : n ≤ 1
    · simp only [log2fuel, if_pos hn]
      omega
    · simp only [log2fuel, if_neg hn]
      have hrec := ih (n / 2) (by omega) (by omega)
      have h2pow : 2 ^ (log2fuel fuel (n / 2) + 1) = 2 * 2 ^ log2fuel fuel (n / 2) := by ring
      have h2pow2 : 2 ^ (log2fuel fuel (n / 2) + 1 + 1) = 2 * 2 ^ (log2fuel fuel (n / 2) + 1) := by
        ring
      omega

theorem natLog2_spec (n : ℕ) (h : 1 ≤ n) :
    2 ^ natLog2 n ≤ n ∧ n < 2 ^ (natLog2 n + 1) :=
  log2fuel_spec n n h le_rfl

theorem natClog2_spec (n : ℕ) (h : 2 ≤ n) :
    2 ^ (natClog2 n - 1) < n ∧ n ≤ 2 ^ natClog2 n := by
  have hs := natLog2_spec (n - 1) (by omega)
  simp only [natClog2, if_neg (by omega : ¬ n ≤ 1)]
  constructor
  · have := hs.1
    simp only [Nat.add_sub_cancel]
    omega
  · have := hs.2
    omega

theorem ratLog2_spec (q : ℚ) (hq : 0 < q) :
    (2 : ℚ) ^ ratLog2 q ≤ q ∧ q < 2 ^ (ratLog2 q + 1) := by
  unfold ratLog2
  by_cases h1 : 1 ≤ q
  · rw [if_pos h1]
    set n : ℕ := ⌊q⌋.toNat with hn
    have hfl : (n : ℤ) = ⌊q⌋ := Int.toNat_of_nonneg (by positivity)
    have hn1 : 1 ≤ n := by
      have h1' : (1 : ℤ) ≤ ⌊q⌋ := Int.le_floor.mpr (by exact_mod_cast h1)
      omega
    have hnq : (n : ℚ) ≤ q := by
      have := Int.floor_le q
      rw [← hfl] at this
      exact_mod_cast this
    have hqn : q < (n : ℚ) + 1 := by
      have := Int.lt_floor_add_one q
      rw [← hfl] at this
      exact_mod_cast this
    obtain ⟨hlo, hhi⟩ := natLog2_spec n hn1
    constructor
    · calc (2 : ℚ) ^ ((natLog2 n : ℕ) : ℤ) = ((2 ^ natLog2 n : ℕ) : ℚ) := by
            rw [zpow_natCast]; push_cast; ring
      _ ≤ (n : ℚ) := by exact_mod_cast hlo
      _ ≤ q := hnq
    · calc q < (n : ℚ) + 1 := hqn
      _ ≤ ((2 ^ (natLog2 n + 1) : ℕ) : ℚ) := by exact_mod_cast hhi
      _ = (2 : ℚ) ^ (((natLog2 n : ℕ) : ℤ) + 1) := by
          rw [show (((natLog2 n : ℕ) : ℤ) + 1) = (((natLog2 n + 1 : ℕ)) : ℤ) by push_cast; ring,
            zpow_natCast]
          push_cast; ring
  · rw [if_neg h1]
    push_neg at h1
    set m : ℕ := ⌈q⁻¹⌉.toNat with hm
    set k : ℕ := natClog2 m with hk
    have hq1 : 1 < q⁻¹ := (one_lt_inv₀ hq).mpr h1
    have hcl : (m : ℤ) = ⌈q⁻¹⌉ := Int.toNat_of_nonneg (by positivity)
    have hm2 : 2 ≤ m := by
      have h2 : (1 : ℤ) < ⌈q⁻¹⌉ := by
        rw [Int.lt_ceil]; exact_mod_cast hq1
      omega
    obtain ⟨hlo, hhi⟩ := natClog2_spec m hm2
    rw [← hk] at hlo hhi
    have hk1 : 1 ≤ k := by
      by_contra hcon
      have hz : k = 0 := by omega
      rw [hz] at hhi
      simp at hhi
      omega
    have hinvm : q⁻¹ ≤ (m : ℚ) := by
      have := Int.le_ceil q⁻¹
      rw [← hcl] at this
      exact_mod_cast this
    have hminv : (m : ℚ) - 1 < q⁻¹ := by
      have := Int.ceil_lt_add_one q⁻¹
      rw [← hcl] at this
      have h2 : (m : ℚ) < q⁻¹ + 1 := by exact_mod_cast this
      linarith
    have hpk : (0 : ℚ) < 2 ^ k := by positivity
    constructor
    · have hub : q⁻¹ ≤ (2 : ℚ) ^ k := by
        calc q⁻¹ ≤ (m : ℚ) := hinvm
        _ ≤ ((2 ^ k : ℕ) : ℚ) := by exact_mod_cast hhi
        _ = (2 : ℚ) ^ k := by push_cast; ring
      have h1q : 1 ≤ q * 2 ^ k := by
        calc (1 : ℚ) = q * q⁻¹ := (mul_inv_cancel₀ hq.ne').symm
        _ ≤ q * 2 ^ k := mul_le_mul_of_nonneg_left hub hq.le
      have hdiv : (1 : ℚ) / 2 ^ k ≤ q := (div_le_iff hpk).mpr (by linarith)
      calc (2 : ℚ) ^ (-(k : ℤ)) = ((2 : ℚ) ^ (k : ℕ))⁻¹ := by
            rw [zpow_neg, zpow_natCast]
      _ = 1 / 2 ^ k := by rw [inv_eq_one_div]
      _ ≤ q := hdiv
    · have hlb : (2 : ℚ) ^ (k - 1 : ℕ) < q⁻¹ := by
        calc (2 : ℚ) ^ (k - 1 : ℕ) = ((2 ^ (k - 1) : ℕ) : ℚ) := by push_cast; ring
        _ ≤ (m : ℚ) - 1 := by
            have h1' : (2 ^ (k - 1) + 1 : ℕ) ≤ m := by omega
            have h2 : ((2 ^ (k - 1) + 1 : ℕ) : ℚ) ≤ (m : ℚ) := by exact_mod_cast h1'
            push_cast at h2 ⊢
            linarith
        _ < q⁻¹ := hminv
      have hpk1 : (0 : ℚ) < 2 ^ (k - 1 : ℕ) := by positivity
      have hmul : q * 2 ^ (k - 1 : ℕ) < 1 := by
        calc q * 2 ^ (k - 1 : ℕ) < q * q⁻¹ := mul_lt_mul_of_pos_left hlb hq
        _ = 1 := mul_inv_cancel₀ hq.ne'
      have hdiv : q < 1 / 2 ^ (k - 1 : ℕ) := (lt_div_iff hpk1).mpr hmul
      have hexp : (-(k : ℤ) + 1) = -((k - 1 : ℕ) : ℤ) := by omega
      calc q < 1 / 2 ^ (k - 1 : ℕ) := hdiv
      _ = ((2 : ℚ) ^ ((k - 1 : ℕ) : ℤ))⁻¹ := by rw [zpow_natCast, inv_eq_one_div]
      _ = (2 : ℚ) ^ (-((k - 1 : ℕ) : ℤ)) := by rw [zpow_neg]
      _ = (2 : ℚ) ^ (-(k : ℤ) + 1) := by rw [hexp]

theorem rne_intCast (n : ℤ) : rne (n : ℚ) = n := by
  simp only [rne, Int.floor_intCast]
  norm_num

theorem rne_nonneg (q : ℚ) (hq : 0 ≤ q) : 0 ≤ rne q := by
  simp only [rne]
  have hfl : 0 ≤ ⌊q⌋ := Int.floor_nonneg.mpr hq
  split_ifs <;> omega

theorem rne_nonpos (q : ℚ) (hq : q ≤ 0) : rne q ≤ 0 := by
  simp only [rne]
  have hfl : ⌊q⌋ ≤ 0 := Int.floor_nonpos hq
  have hle : (⌊q⌋ : ℚ) ≤ q := Int.floor_le q
  split_ifs with h1 h2 h3
  · exact hfl
  all_goals
    rw [not_lt] at h1
    have hq2 : (⌊q⌋ : ℚ) ≤ -(1 / 2) := by linarith
    have hneg1 : (⌊q⌋ : ℚ) < 0 := by linarith
    have hneg : ⌊q⌋ < 0 := by exact_mod_cast hneg1
    omega

theorem le_rne (q : ℚ) : q - 1 / 2 ≤ (rne q : ℚ) := by
  simp only [rne]
  have hle : (⌊q⌋ : ℚ) ≤ q := Int.floor_le q
  have hlt : q < (⌊q⌋ : ℚ) + 1 := Int.lt_floor_add_one q
  split_ifs with h1 h2 h3
  · linarith
  all_goals push_cast
  · linarith
  · linarith
  · linarith

theorem rne_le (q : ℚ) : (rne q : ℚ) ≤ q + 1 / 2 := by
  simp only [rne]
  have hle : (⌊q⌋ : ℚ) ≤ q := Int.floor_le q
  have hlt : q < (⌊q⌋ : ℚ) + 1 := Int.lt_floor_add_one q
  split_ifs with h1 h2 h3
  · linarith
  all_goals push_cast
  · linarith
  · linarith
  · linarith

/-- Rounding an integer of magnitude below `2 ^ t` to the format is exact. -/
theorem flRat_intCast (fmt : FloatFmt) (hemin : fmt.emin ≤ 0)
    (hmax : (2 : ℚ) ^ (fmt.t : ℤ) ≤ fmt.maxFinite) (n : ℤ) (hn : n.natAbs < 2 ^ fmt.t) :
    fmt.flRat (n : ℚ) = .fin (n : ℚ) := by
  by_cases h0 : (n : ℚ) = 0
  · rw [h0]
    simp [FloatFmt.flRat, h0]
  · have hne : n ≠ 0 := fun h => h0 (by rw [h]; norm_num)
    have habs : |(n : ℚ)| = (n.natAbs : ℚ) := by
      rw [← Int.cast_abs, Int.abs_eq_natAbs, Int.cast_natCast]
    have habs_pos : (0 : ℚ) < |(n : ℚ)| := abs_pos.mpr h0
    have habs_lt : |(n : ℚ)| < (2 : ℚ) ^ (fmt.t : ℕ) := by
      rw [habs]
      exact_mod_cast hn
    obtain ⟨hlo, hhi⟩ := ratLog2_spec |(n : ℚ)| habs_pos
    set l : ℤ := ratLog2 |(n : ℚ)| with hl
    have hl0 : 0 ≤ l := by
      by_contra hcon
      push_neg at hcon
      have h2 : (2 : ℚ) ^ (l + 1) ≤ 2 ^ (0 : ℤ) :=
        zpow_le_zpow_right₀ (by norm_num) (by omega)
      have h3 : (1 : ℚ) ≤ |(n : ℚ)| := by
        rw [habs]
        exact_mod_cast Nat.one_le_iff_ne_zero.mpr (Int.natAbs_ne_zero.mpr hne)
      rw [zpow_zero] at h2
      linarith
    have hlt : l < fmt.t := by
      by_contra hcon
      push_neg at hcon
      have h2 : (2 : ℚ) ^ ((fmt.t : ℕ) : ℤ) ≤ 2 ^ l := zpow_le_zpow_right₀ (by norm_num) hcon
      rw [zpow_natCast] at h2
      linarith
    have hmaxeq : max l fmt.emin = l := max_eq_left (le_trans hemin hl0)
    set w : ℕ := (fmt.t - 1 - l).toNat with hw
    have hwz : (w : ℤ) = fmt.t - 1 - l := Int.toNat_of_nonneg (by omega)
    have hsexp : l - fmt.t + 1 = -(w : ℤ) := by omega
    have hpow_ne : ((2 : ℚ) ^ (w : ℕ)) ≠ 0 := by positivity
    have hqs : (n : ℚ) / 2 ^ (l - (fmt.t : ℤ) + 1) = ((n * 2 ^ w : ℤ) : ℚ) := by
      rw [hsexp, zpow_neg, zpow_natCast]
      push_cast
      field_simp
    have hr : (rne ((n : ℚ) / 2 ^ (l - (fmt.t : ℤ) + 1)) : ℚ) * 2 ^ (l - (fmt.t : ℤ) + 1)
        = (n : ℚ) := by
      rw [hqs, rne_intCast, hsexp, zpow_neg, zpow_natCast]
      push_cast
      field_simp
    simp only [FloatFmt.flRat, if_neg h0, ← hl, hmaxeq, hr]
    rw [if_neg]
    push_neg
    have hcast : (2 : ℚ) ^ (fmt.t : ℕ) = (2 : ℚ) ^ ((fmt.t : ℕ) : ℤ) := (zpow_natCast 2 fmt.t).symm
    exact le_of_lt (lt_of_lt_of_le (hcast ▸ habs_lt) hmax)

/-- Rounding a nonpositive rational yields negative infinity or a
nonpositive finite value. -/
theorem flRat_nonpos_cases (fmt : FloatFmt) (q : ℚ) (hq : q ≤ 0) :
    fmt.flRat q = .inf true ∨ ∃ r : ℚ, fmt.flRat q = .fin r ∧ r ≤ 0 := by
  by_cases h0 : q = 0
  · right
    refine ⟨0, ?_, le_rfl⟩
    simp [FloatFmt.flRat, h0]
  · have hq' : q < 0 := lt_of_le_of_ne hq h0
    have hspos : (0 : ℚ) < 2 ^ (max (ratLog2 |q|) fmt.emin - fmt.t + 1) :=
      zpow_pos (by norm_num) _
    have hdiv : q / 2 ^ (max (ratLog2 |q|) fmt.emin - fmt.t + 1) ≤ 0 :=
      div_nonpos_iff.mpr (Or.inr ⟨hq, hspos.le⟩)
    have hrne : rne (q / 2 ^ (max (ratLog2 |q|) fmt.emin - fmt.t + 1)) ≤ 0 :=
      rne_nonpos _ hdiv
    have hrle : (rne (q / 2 ^ (max (ratLog2 |q|) fmt.emin - fmt.t + 1)) : ℚ)
        * 2 ^ (max (ratLog2 |q|) fmt.emin - fmt.t + 1) ≤ 0 :=
      mul_nonpos_iff.mpr (Or.inr ⟨by exact_mod_cast hrne, hspos.le⟩)
    simp only [FloatFmt.flRat, if_neg h0]
    split_ifs with hcase
    · left
      rw [decide_eq_true hq']
    · right
      exact ⟨_, rfl, hrle⟩

/-- Rounding a rational at least `2 ^ k - 1` (with `1 ≤ k ≤ t`) yields
positive infinity or a finite value at least `2 ^ k - 1`. -/
theorem flRat_ge_cases (fmt : FloatFmt) (hemin : fmt.emin ≤ 0) (k : ℕ)
    (hk1 : 1 ≤ k) (hkt : k ≤ fmt.t) (q : ℚ) (hq : (2 : ℚ) ^ k - 1 ≤ q) :
    fmt.flRat q = .inf false ∨ ∃ r : ℚ, fmt.flRat q = .fin r ∧ (2 : ℚ) ^ k - 1 ≤ r := by
  have hM1 : (1 : ℚ) ≤ (2 : ℚ) ^ k - 1 := by
    have h2 : (2 : ℚ) ^ (1 : ℕ) ≤ 2 ^ k := pow_le_pow_right₀ (by norm_num) hk1
    norm_num at h2
    linarith
  have hqpos : 0 < q := by linarith
  have h0 : q ≠ 0 := hqpos.ne'
  have habs : |q| = q := abs_of_pos hqpos
  obtain ⟨hlo, hhi⟩ := ratLog2_spec q hqpos
  set l : ℤ := ratLog2 q with hl
  have hlk : (k : ℤ) - 1 ≤ l := by
    by_contra hcon
    push_neg at hcon
    have h2 : (2 : ℚ) ^ (l + 1) ≤ 2 ^ ((k : ℤ) - 1) :=
      zpow_le_zpow_right₀ (by norm_num) (by omega)
    have h3 : (2 : ℚ) ^ ((k : ℤ) - 1) ≤ 2 ^ k - 1 := by
      have hik : ((k - 1 : ℕ) : ℤ) = (k : ℤ) - 1 := by omega
      rw [← hik, zpow_natCast]
      have hsum : (2 : ℚ) ^ (k - 1 : ℕ) + 2 ^ (k - 1 : ℕ) = 2 ^ k := by
        rw [← two_mul, ← pow_succ']
        congr 1
        omega
      have hp1 : (1 : ℚ) ≤ 2 ^ (k - 1 : ℕ) := one_le_pow₀ (by norm_num)
      linarith
    linarith
  have hl0 : 0 ≤ l := by omega
  have hmaxeq : max l fmt.emin = l := max_eq_left (le_trans hemin hl0)
  have hspos : (0 : ℚ) < 2 ^ (l - fmt.t + 1) := zpow_pos (by norm_num) _
  have hdivle : ((2 : ℚ) ^ k - 1) / 2 ^ (l - (fmt.t : ℤ) + 1)
      ≤ q / 2 ^ (l - (fmt.t : ℤ) + 1) := (div_le_div_right hspos).mpr hq
  have hrne_lb := le_rne (q / 2 ^ (l - (fmt.t : ℤ) + 1))
  have hrge : (2 : ℚ) ^ k - 1 ≤ (rne (q / 2 ^ (l - (fmt.t : ℤ) + 1)) : ℚ)
      * 2 ^ (l - (fmt.t : ℤ) + 1) := by
    rcases eq_or_lt_of_le hlk with heq | hlt
    · -- l = k - 1 : the grid spacing is 2 ^ (k - t) and 2 ^ k - 1 is on the grid
      set w : ℕ := fmt.t - k with hw
      have hwz : (w : ℤ) = fmt.t - k := by omega
      have hsexp : l - fmt.t + 1 = -(w : ℤ) := by omega
      have hMs : ((2 : ℚ) ^ k - 1) / 2 ^ (l - (fmt.t : ℤ) + 1)
          = (((2 ^ k - 1) * 2 ^ w : ℤ) : ℚ) := by
        rw [hsexp, zpow_neg, zpow_natCast]
        push_cast
        field_simp
      have hmge : ((2 ^ k - 1) * 2 ^ w : ℤ) ≤ rne (q / 2 ^ (l - (fmt.t : ℤ) + 1)) := by
        have h1 : (((2 ^ k - 1) * 2 ^ w : ℤ) : ℚ) - 1 / 2
            ≤ (rne (q / 2 ^ (l - (fmt.t : ℤ) + 1)) : ℚ) := by
          rw [← hMs]
          linarith
        have h2 : (((2 ^ k - 1) * 2 ^ w : ℤ) : ℚ) - 1
            < (rne (q / 2 ^ (l - (fmt.t : ℤ) + 1)) : ℚ) := by linarith
        have h3 : ((2 ^ k - 1) * 2 ^ w : ℤ) - 1 < rne (q / 2 ^ (l - (fmt.t : ℤ) + 1)) := by
          exact_mod_cast h2
        omega
      calc (2 : ℚ) ^ k - 1
          = (((2 ^ k - 1) * 2 ^ w : ℤ) : ℚ) * 2 ^ (l - (fmt.t : ℤ) + 1) := by
            rw [hsexp, zpow_neg, zpow_natCast]
            push_cast
            field_simp
      _ ≤ (rne (q / 2 ^ (l - (fmt.t : ℤ) + 1)) : ℚ) * 2 ^ (l - (fmt.t : ℤ) + 1) :=
            (mul_le_mul_right hspos).mpr (by exact_mod_cast hmge)
    · -- k ≤ l : the result is at least q - s / 2 ≥ 2 ^ l - 2 ^ (l - t) ≥ 2 ^ k - 1
      have hkl : (k : ℤ) ≤ l := by omega
      have hhalf : (2 : ℚ) ^ (l - (fmt.t : ℤ) + 1) / 2 = 2 ^ (l - (fmt.t : ℤ)) := by
        rw [show l - (fmt.t : ℤ) + 1 = (l - fmt.t) + 1 by ring, zpow_add₀ (by norm_num : (2:ℚ) ≠ 0)]
        ring
      have hstep : q - 2 ^ (l - (fmt.t : ℤ))
          ≤ (rne (q / 2 ^ (l - (fmt.t : ℤ) + 1)) : ℚ) * 2 ^ (l - (fmt.t : ℤ) + 1) := by
        have h1 : (q / 2 ^ (l - (fmt.t : ℤ) + 1) - 1 / 2) * 2 ^ (l - (fmt.t : ℤ) + 1)
            ≤ (rne (q / 2 ^ (l - (fmt.t : ℤ) + 1)) : ℚ) * 2 ^ (l - (fmt.t : ℤ) + 1) :=
          mul_le_mul_of_nonneg_right hrne_lb hspos.le
        have h2 : (q / 2 ^ (l - (fmt.t : ℤ) + 1) - 1 / 2) * 2 ^ (l - (fmt.t : ℤ) + 1)
            = q - 2 ^ (l - (fmt.t : ℤ) + 1) / 2 := by
          field_simp
          ring
        rw [h2, hhalf] at h1
        exact h1
      have hlow : (2 : ℚ) ^ k - 1 ≤ q - 2 ^ (l - (fmt.t : ℤ)) := by
        have e1 : (2 : ℚ) ^ l - 2 ^ (l - (fmt.t : ℤ)) = 2 ^ (l - (fmt.t : ℤ)) * (2 ^ (fmt.t : ℤ) - 1) := by
          rw [mul_sub, ← zpow_add₀ (by norm_num : (2:ℚ) ≠ 0)]
          ring_nf
        have e2 : (2 : ℚ) ^ ((k : ℤ)) - 2 ^ ((k : ℤ) - fmt.t) = 2 ^ ((k : ℤ) - fmt.t) * (2 ^ (fmt.t : ℤ) - 1) := by
          rw [mul_sub, ← zpow_add₀ (by norm_num : (2:ℚ) ≠ 0)]
          ring_nf
        have hm1 : (2 : ℚ) ^ ((k : ℤ) - fmt.t) ≤ 2 ^ (l - (fmt.t : ℤ)) :=
          zpow_le_zpow_right₀ (by norm_num) (by omega)
        have hm2 : (0 : ℚ) ≤ 2 ^ (fmt.t : ℤ) - 1 := by
          have := one_le_zpow_of_nonneg (by norm_num : (1:ℚ) ≤ 2) (by omega : (0:ℤ) ≤ (fmt.t : ℤ))
          linarith
        have hm3 : (2 : ℚ) ^ ((k : ℤ) - fmt.t) ≤ 1 := by
          have := zpow_le_zpow_right₀ (by norm_num : (1:ℚ) ≤ 2) (by omega : (k : ℤ) - fmt.t ≤ 0)
          rwa [zpow_zero] at this
        have hprod : (2 : ℚ) ^ ((k : ℤ) - fmt.t) * (2 ^ (fmt.t : ℤ) - 1)
            ≤ 2 ^ (l - (fmt.t : ℤ)) * (2 ^ (fmt.t : ℤ) - 1) :=
          mul_le_mul_of_nonneg_right hm1 hm2
        have hzk : (2 : ℚ) ^ ((k : ℤ)) = 2 ^ (k : ℕ) := zpow_natCast 2 k
        have hql : (2 : ℚ) ^ l ≤ q := hlo
        -- 2 ^ k - 1 ≤ 2 ^ k - 2 ^ (k - t) ≤ 2 ^ l - 2 ^ (l - t) ≤ q - 2 ^ (l - t)
        nlinarith [hql, hprod, hm3, e1, e2, hzk]
      linarith
  simp only [FloatFmt.flRat, if_neg h0, habs, ← hl, hmaxeq]
  split_ifs with hcase
  · left
    have : decide (q < 0) = false := decide_eq_false (not_lt.mpr hqpos.le)
    rw [this]
  · right
    exact ⟨_, rfl, hrge⟩

theorem floor_half_rat : ⌊(1 / 2 : ℚ)⌋ = 0 := by
  rw [Int.floor_eq_iff] <;> norm_num

theorem roundAwayRat_intCast (n : ℤ) : roundAwayRat (n : ℚ) = n := by
  unfold roundAwayRat
  split_ifs with h
  · rw [add_comm, Int.floor_add_int, floor_half_rat, zero_add]
  · rw [show (-(n : ℚ) + 1 / 2) = (1 / 2 : ℚ) + (-n : ℤ) by push_cast; ring,
      Int.floor_add_int, floor_half_rat, zero_add]
    ring

theorem roundAwayRat_nonpos (q : ℚ) (hq : q ≤ 0) : roundAwayRat q ≤ 0 := by
  unfold roundAwayRat
  split_ifs with h
  · have hq0 : q = 0 := le_antisymm hq h
    rw [hq0, zero_add, floor_half_rat]
  · have h2 : (0 : ℚ) ≤ -q + 1 / 2 := by linarith
    have h3 : 0 ≤ ⌊-q + 1 / 2⌋ := Int.floor_nonneg.mpr h2
    omega

theorem roundAwayRat_ge (n : ℤ) (hn : 0 ≤ n) (q : ℚ) (h : (n : ℚ) ≤ q) :
    n ≤ roundAwayRat q := by
  unfold roundAwayRat
  have hq0 : (0 : ℚ) ≤ q := le_trans (by exact_mod_cast hn) h
  rw [if_pos hq0]
  have h1 : ⌊(n : ℚ) + 1 / 2⌋ ≤ ⌊q + 1 / 2⌋ := Int.floor_le_floor (by linarith)
  rw [add_comm, Int.floor_add_int, floor_half_rat, zero_add] at h1
  exact h1

theorem castSatNat_fin_nonpos (M : ℕ) (r : ℚ) (hr : r ≤ 0) :
    castSatNat M (.fin r) = 0 := by
  simp only [castSatNat]
  split_ifs with h
  · rfl
  · have hr0 : r = 0 := le_antisymm hr (not_lt.mp h)
    rw [hr0]
    norm_num

theorem castSatNat_fin_ge (M : ℕ) (r : ℚ) (hr : (M : ℚ) ≤ r) :
    castSatNat M (.fin r) = M := by
  simp only [castSatNat]
  rw [if_neg (not_lt.mpr (le_trans (by positivity) hr))]
  have h1 : (M : ℤ) ≤ ⌊r⌋ := Int.le_floor.mpr (by exact_mod_cast hr)
  omega

/-- Evaluation of the claim-side pipeline at a clamped-to-zero input. -/
theorem cast_round_mul_zero (fmt : FloatFmt) (M : ℕ) :
    castSatNat M (GFloat.roundAway (GFloat.mul fmt (.fin 0) (.fin (M : ℚ)))) = 0 := by
  have hflz : fmt.flRat (0 : ℚ) = .fin 0 := by
    simp [FloatFmt.flRat]
  have hrz : roundAwayRat 0 = 0 := by
    have := roundAwayRat_intCast 0
    simpa using this
  simp [GFloat.mul, hflz, GFloat.roundAway, hrz, castSatNat]

/-- Evaluation of the claim-side pipeline at a clamped-to-one input. -/
theorem cast_round_mul_one (fmt : FloatFmt) (hemin : fmt.emin ≤ 0)
    (hmax : (2 : ℚ) ^ (fmt.t : ℤ) ≤ fmt.maxFinite) (M : ℕ) (hMt : M < 2 ^ fmt.t) :
    castSatNat M (GFloat.roundAway (GFloat.mul fmt (.fin 1) (.fin (M : ℚ)))) = M := by
  have hcast : ((1 : ℚ) * (M : ℚ)) = ((M : ℤ) : ℚ) := by push_cast; ring
  have hfl : fmt.flRat ((1 : ℚ) * (M : ℚ)) = .fin ((M : ℤ) : ℚ) := by
    rw [hcast]
    exact flRat_intCast fmt hemin hmax (M : ℤ) (by simpa using hMt)
  have hrd : roundAwayRat ((M : ℤ) : ℚ) = (M : ℤ) := roundAwayRat_intCast (M : ℤ)
  simp only [GFloat.mul, hfl, GFloat.roundAway, hrd]
  exact castSatNat_fin_ge M _ (by push_cast; exact le_rfl)

/-- The core refinement equation behind C7: for every float input, the
crate's `from_normalized` pipeline (multiply, round away from zero,
saturating cast) equals the claim's formula (clamp, multiply, round,
convert), for a format and an integer maximum `M = 2 ^ k - 1`. -/
theorem from_normalized_eq_claim (fmt : FloatFmt) (hemin : fmt.emin ≤ 0)
    (hmax : (2 : ℚ) ^ (fmt.t : ℤ) ≤ fmt.maxFinite) (k : ℕ) (hk1 : 1 ≤ k)
    (hkt : k ≤ fmt.t) (M : ℕ) (hM : (M : ℚ) = 2 ^ k - 1) (v : GFloat) :
    castSatNat M (GFloat.roundAway (GFloat.mul fmt v (.fin (M : ℚ))))
      = claim_from_normalized fmt M v := by
  have hM1 : (1 : ℚ) ≤ (M : ℚ) := by
    rw [hM]
    have h2 : (2 : ℚ) ^ (1 : ℕ) ≤ 2 ^ k := pow_le_pow_right₀ (by norm_num) hk1
    norm_num at h2
    linarith
  have hMne : (M : ℚ) ≠ 0 := by linarith
  have hMnat : M < 2 ^ fmt.t := by
    have hcast : ((M : ℚ)) + 1 = ((2 ^ k : ℕ) : ℚ) := by rw [hM]; push_cast; ring
    have hMk : M + 1 = 2 ^ k := by exact_mod_cast hcast
    have hle : (2 : ℕ) ^ k ≤ 2 ^ fmt.t := Nat.pow_le_pow_right (by norm_num) hkt
    omega
  cases v with
  | nan =>
    simp [claim_from_normalized, GFloat.clamp, GFloat.blt, GFloat.bgt, GFloat.mul,
      GFloat.roundAway, castSatNat]
  | inf neg =>
    cases neg with
    | true =>
      have hlhs : GFloat.mul fmt (.inf true) (.fin (M : ℚ)) = .inf true := by
        simp [GFloat.mul, hMne, not_lt.mpr (by positivity : (0 : ℚ) ≤ (M : ℚ))]
      have hclamp : GFloat.clamp (.inf true) (.fin 0) (.fin 1) = .fin 0 := by
        simp [GFloat.clamp, GFloat.blt, GFloat.bgt]
      rw [claim_from_normalized, hclamp, hlhs, cast_round_mul_zero fmt M]
      simp [GFloat.roundAway, castSatNat]
    | false =>
      have hlhs : GFloat.mul fmt (.inf false) (.fin (M : ℚ)) = .inf false := by
        simp [GFloat.mul, hMne, not_lt.mpr (by positivity : (0 : ℚ) ≤ (M : ℚ))]
      have hclamp : GFloat.clamp (.inf false) (.fin 0) (.fin 1) = .fin 1 := by
        simp [GFloat.clamp, GFloat.blt, GFloat.bgt]
      rw [claim_from_normalized, hclamp, hlhs, cast_round_mul_one fmt hemin hmax M hMnat]
      simp [GFloat.roundAway, castSatNat]
  | fin q =>
    by_cases hq0 : q < 0
    · have hclamp : GFloat.clamp (.fin q) (.fin 0) (.fin 1) = .fin 0 := by
        simp [GFloat.clamp, GFloat.blt, GFloat.bgt, hq0, decide_eq_true hq0]
      rw [claim_from_normalized, hclamp, cast_round_mul_zero fmt M]
      have hprod : q * (M : ℚ) ≤ 0 :=
        mul_nonpos_iff.mpr (Or.inr ⟨hq0.le, by positivity⟩)
      rcases flRat_nonpos_cases fmt (q * (M : ℚ)) hprod with hinf | ⟨r, hr, hrle⟩
      · simp [GFloat.mul, hinf, GFloat.roundAway, castSatNat]
      · have hround : roundAwayRat r ≤ 0 := roundAwayRat_nonpos r hrle
        simp only [GFloat.mul, hr, GFloat.roundAway]
        exact castSatNat_fin_nonpos M _ (by exact_mod_cast hround)
    · by_cases hq1 : 1 < q
      · have hclamp : GFloat.clamp (.fin q) (.fin 0) (.fin 1) = .fin 1 := by
          simp [GFloat.clamp, GFloat.blt, GFloat.bgt, hq0, hq1]
        rw [claim_from_normalized, hclamp, cast_round_mul_one fmt hemin hmax M hMnat]
        have hprod : (2 : ℚ) ^ k - 1 ≤ q * (M : ℚ) := by
          rw [← hM]
          nlinarith
        rcases flRat_ge_cases fmt hemin k hk1 hkt (q * (M : ℚ)) hprod with hinf | ⟨r, hr, hrge⟩
        · simp [GFloat.mul, hinf, GFloat.roundAway, castSatNat]
        · have hround : (M : ℤ) ≤ roundAwayRat r :=
            roundAwayRat_ge (M : ℤ) (by positivity) r (by push_cast; rw [hM]; exact hrge)
          simp only [GFloat.mul, hr, GFloat.roundAway]
          exact castSatNat_fin_ge M _ (by exact_mod_cast hround)
      · have hclamp : GFloat.clamp (.fin q) (.fin 0) (.fin 1) = .fin q := by
          simp [GFloat.clamp, GFloat.blt, GFloat.bgt, hq0, hq1]
        rw [claim_from_normalized, hclamp]

/-- Clamping to `[0, 1]` sends every non-NaN float into the range, with the
boundary behavior the spec describes. -/
theorem clamp01_spec (x : GFloat) (hx : x ≠ .nan) :
    inRange01 (x.clamp (.fin 0) (.fin 1)) = true ∧
    (x.blt (.fin 0) = true → x.clamp (.fin 0) (.fin 1) = .fin 0) ∧
    (GFloat.blt (.fin 1) x = true → x.clamp (.fin 0) (.fin 1) = .fin 1) ∧
    (inRange01 x = true → x.clamp (.fin 0) (.fin 1) = x) := by
  cases x with
  | nan => exact absurd rfl hx
  | inf neg =>
    cases neg with
    | true => exact ⟨by decide, by decide, by decide, by decide⟩
    | false => exact ⟨by decide, by decide, by decide, by decide⟩
  | fin q =>
    have hb0 : GFloat.blt (.fin q) (.fin 0) = decide (q < 0) := rfl
    have hb1 : GFloat.blt (.fin 1) (.fin q) = decide (1 < q) := rfl
    have hble0 : GFloat.ble (.fin 0) (.fin q) = decide (0 ≤ q) := rfl
    have hble1 : GFloat.ble (.fin q) (.fin 1) = decide (q ≤ 1) := rfl
    by_cases hq0 : q < 0
    · have hc : GFloat.clamp (.fin q) (.fin 0) (.fin 1) = .fin 0 := by
        simp [GFloat.clamp, GFloat.bgt, hb0, decide_eq_true hq0]
        decide
      refine ⟨by rw [hc]; decide, fun _ => hc, fun h1 => ?_, fun hr => ?_⟩
      · rw [hb1, decide_eq_true_eq] at h1
        linarith
      · rw [inRange01, hble0, Bool.and_eq_true, decide_eq_true_eq] at hr
        linarith [hr.1]
    · by_cases hq1 : 1 < q
      · have hc : GFloat.clamp (.fin q) (.fin 0) (.fin 1) = .fin 1 := by
          simp [GFloat.clamp, GFloat.bgt, hb0, hb1, decide_eq_false hq0, decide_eq_true hq1]
        refine ⟨by rw [hc]; decide, fun h0 => ?_, fun _ => hc, fun hr => ?_⟩
        · rw [hb0, decide_eq_true_eq] at h0
          exact absurd h0 hq0
        · rw [inRange01, hble1, Bool.and_eq_true, decide_eq_true_eq] at hr
          linarith [hr.2]
      · have hc : GFloat.clamp (.fin q) (.fin 0) (.fin 1) = .fin q := by
          simp [GFloat.clamp, GFloat.bgt, hb0, hb1, decide_eq_false hq0, decide_eq_false hq1]
        refine ⟨?_, fun h0 => ?_, fun h1 => ?_, fun _ => hc⟩
        · rw [hc, inRange01, hble0, hble1]
          simp [not_lt.mp hq0, not_lt.mp hq1]
        · rw [hb0, decide_eq_true_eq] at h0
          exact absurd h0 hq0
        · rw [hb1, decide_eq_true_eq] at h1
          exact absurd h1 hq1

theorem truncRat_intCast (n : ℤ) : truncRat (n : ℚ) = n := by
  unfold truncRat
  split_ifs with h
  · exact Int.floor_intCast n
  · exact Int.ceil_intCast n

theorem castSatInt_fin_intCast (lo hi n : ℤ) (h1 : lo ≤ n) (h2 : n ≤ hi) :
    castSatInt lo hi (.fin (n : ℚ)) = n := by
  simp only [castSatInt, truncRat_intCast n]
  omega

theorem f32_hemin : f32fmt.emin ≤ 0 := by norm_num [f32fmt]

theorem f32_hmax : (2 : ℚ) ^ (f32fmt.t : ℤ) ≤ f32fmt.maxFinite := by
  norm_num [f32fmt, FloatFmt.maxFinite]

theorem f64_hemin : f64fmt.emin ≤ 0 := by norm_num [f64fmt]

theorem f64_hmax : (2 : ℚ) ^ (f64fmt.t : ℤ) ≤ f64fmt.maxFinite := by
  norm_num [f64fmt, FloatFmt.maxFinite]

/-- The fallback rounding agrees with round-half-away-from-zero on every
representable positive or negative midpoint, f32 version. -/
theorem fallback_f32_midpoint (k : ℕ) (hk : k < 2 ^ 23) :
    fallback_round_f32 (.fin ((k : ℚ) + 1 / 2)) = .fin ((k : ℚ) + 1) ∧
    fallback_round_f32 (.fin (-((k : ℚ) + 1 / 2))) = .fin (-((k : ℚ) + 1)) := by
  have hintcast : ((k : ℚ) + 1 / 2) + 1 / 2 = (((k : ℤ) + 1 : ℤ) : ℚ) := by push_cast; ring
  have hnegcast : (-((k : ℚ) + 1 / 2)) - 1 / 2 = ((-((k : ℤ) + 1) : ℤ) : ℚ) := by push_cast; ring
  have habs : ((k : ℤ) + 1).natAbs < 2 ^ f32fmt.t := by
    simp only [f32fmt]
    omega
  have habsn : (-((k : ℤ) + 1)).natAbs < 2 ^ f32fmt.t := by
    simp only [f32fmt]
    omega
  have hflp : f32fmt.flRat ((((k : ℤ) + 1 : ℤ)) : ℚ) = .fin (((k : ℤ) + 1 : ℤ) : ℚ) :=
    flRat_intCast f32fmt f32_hemin f32_hmax _ habs
  have hfln : f32fmt.flRat ((-((k : ℤ) + 1) : ℤ) : ℚ) = .fin ((-((k : ℤ) + 1) : ℤ) : ℚ) :=
    flRat_intCast f32fmt f32_hemin f32_hmax _ habsn
  have hk0 : (0 : ℤ) ≤ (k : ℤ) := Int.natCast_nonneg k
  have hk23 : (k : ℤ) < 2 ^ 23 := by exact_mod_cast hk
  have hlow : -(2 ^ 31 : ℤ) ≤ (k : ℤ) + 1 := by
    have h1 : -(2 ^ 31 : ℤ) ≤ 0 := by norm_num
    linarith
  have hhigh : (k : ℤ) + 1 ≤ 2 ^ 31 - 1 := by
    have h1 : (2 ^ 23 : ℤ) ≤ 2 ^ 31 - 2 := by norm_num
    linarith
  have hlown : -(2 ^ 31 : ℤ) ≤ -((k : ℤ) + 1) := by
    have h1 : (k : ℤ) + 1 ≤ 2 ^ 31 := by linarith
    linarith
  have hhighn : -((k : ℤ) + 1) ≤ 2 ^ 31 - 1 := by linarith
  constructor
  · have hge : GFloat.bge (.fin ((k : ℚ) + 1 / 2)) (.fin 0) = true := by
      have : GFloat.bge (.fin ((k : ℚ) + 1 / 2)) (.fin 0) = decide ((0 : ℚ) ≤ (k : ℚ) + 1 / 2) :=
        rfl
      rw [this]
      exact decide_eq_true (by positivity)
    have hcast : ((((k : ℤ) + 1 : ℤ)) : ℚ) = (k : ℚ) + 1 := by push_cast; ring
    simp only [fallback_round_f32, hge, if_true, GFloat.add, hintcast, hflp]
    rw [castSatInt_fin_intCast (-(2 ^ 31)) (2 ^ 31 - 1) ((k : ℤ) + 1) hlow hhigh]
    rw [i32_to_f32, hflp, hcast]
  · have hge : GFloat.bge (.fin (-((k : ℚ) + 1 / 2))) (.fin 0) = false := by
      have heq : GFloat.bge (.fin (-((k : ℚ) + 1 / 2))) (.fin 0)
          = decide ((0 : ℚ) ≤ -((k : ℚ) + 1 / 2)) := rfl
      rw [heq]
      apply decide_eq_false
      push_neg
      have h1 : (0 : ℚ) < (k : ℚ) + 1 / 2 := by positivity
      linarith
    have hcast : (((-((k : ℤ) + 1) : ℤ)) : ℚ) = -((k : ℚ) + 1) := by push_cast; ring
    simp only [fallback_round_f32, hge, Bool.false_eq_true, if_false, GFloat.sub, hnegcast, hfln]
    rw [castSatInt_fin_intCast (-(2 ^ 31)) (2 ^ 31 - 1) (-((k : ℤ) + 1)) hlown hhighn]
    rw [i32_to_f32, hfln, hcast]

/-- The fallback rounding agrees with round-half-away-from-zero on every
representable positive or negative midpoint, f64 version. -/
theorem fallback_f64_midpoint (k : ℕ) (hk : k < 2 ^ 52) :
    fallback_round_f64 (.fin ((k : ℚ) + 1 / 2)) = .fin ((k : ℚ) + 1) ∧
    fallback_round_f64 (.fin (-((k : ℚ) + 1 / 2))) = .fin (-((k : ℚ) + 1)) := by
  have hintcast : ((k : ℚ) + 1 / 2) + 1 / 2 = (((k : ℤ) + 1 : ℤ) : ℚ) := by push_cast; ring
  have hnegcast : (-((k : ℚ) + 1 / 2)) - 1 / 2 = ((-((k : ℤ) + 1) : ℤ) : ℚ) := by push_cast; ring
  have habs : ((k : ℤ) + 1).natAbs < 2 ^ f64fmt.t := by
    simp only [f64fmt]
    omega
  have habsn : (-((k : ℤ) + 1)).natAbs < 2 ^ f64fmt.t := by
    simp only [f64fmt]
    omega
  have hflp : f64fmt.flRat ((((k : ℤ) + 1 : ℤ)) : ℚ) = .fin (((k : ℤ) + 1 : ℤ) : ℚ) :=
    flRat_intCast f64fmt f64_hemin f64_hmax _ habs
  have hfln : f64fmt.flRat ((-((k : ℤ) + 1) : ℤ) : ℚ) = .fin ((-((k : ℤ) + 1) : ℤ) : ℚ) :=
    flRat_intCast f64fmt f64_hemin f64_hmax _ habsn
  have hk0 : (0 : ℤ) ≤ (k : ℤ) := Int.natCast_nonneg k
  have hk52 : (k : ℤ) < 2 ^ 52 := by exact_mod_cast hk
  have hlow : -(2 ^ 63 : ℤ) ≤ (k : ℤ) + 1 := by
    have h1 : -(2 ^ 63 : ℤ) ≤ 0 := by norm_num
    linarith
  have hhigh : (k : ℤ) + 1 ≤ 2 ^ 63 - 1 := by
    have h1 : (2 ^ 52 : ℤ) ≤ 2 ^ 63 - 2 := by norm_num
    linarith
  have hlown : -(2 ^ 63 : ℤ) ≤ -((k : ℤ) + 1) := by
    have h1 : (k : ℤ) + 1 ≤ 2 ^ 63 := by linarith
    linarith
  have hhighn : -((k : ℤ) + 1) ≤ 2 ^ 63 - 1 := by linarith
  constructor
  · have hge : GFloat.bge (.fin ((k : ℚ) + 1 / 2)) (.fin 0) = true := by
      have heq : GFloat.bge (.fin ((k : ℚ) + 1 / 2)) (.fin 0)
          = decide ((0 : ℚ) ≤ (k : ℚ) + 1 / 2) := rfl
      rw [heq]
      exact decide_eq_true (by positivity)
    have hcast : ((((k : ℤ) + 1 : ℤ)) : ℚ) = (k : ℚ) + 1 := by push_cast; ring
    simp only [fallback_round_f64, hge, if_true, GFloat.add, hintcast, hflp]
    rw [castSatInt_fin_intCast (-(2 ^ 63)) (2 ^ 63 - 1) ((k : ℤ) + 1) hlow hhigh]
    rw [i64_to_f64, hflp, hcast]
  · have hge : GFloat.bge (.fin (-((k : ℚ) + 1 / 2))) (.fin 0) = false := by
      have heq : GFloat.bge (.fin (-((k : ℚ) + 1 / 2))) (.fin 0)
          = decide ((0 : ℚ) ≤ -((k : ℚ) + 1 / 2)) := rfl
      rw [heq]
      apply decide_eq_false
      push_neg
      have h1 : (0 : ℚ) < (k : ℚ) + 1 / 2 := by positivity
      linarith
    have hcast : (((-((k : ℤ) + 1) : ℤ)) : ℚ) = -((k : ℚ) + 1) := by push_cast; ring
    simp only [fallback_round_f64, hge, Bool.false_eq_true, if_false, GFloat.sub, hnegcast, hfln]
    rw [castSatInt_fin_intCast (-(2 ^ 63)) (2 ^ 63 - 1) (-((k : ℤ) + 1)) hlown hhighn]
    rw [i64_to_f64, hfln, hcast]

/-- Bit-level extraction of the red field of `Rgb565`. -/
theorem rgb565_red_extract (r g b : ℕ) : (Rgb565.from_rgb r g b).red = r &&& 0x1F := by
  have hx : (((((r &&& 31) <<< 11) ||| ((g &&& 63) <<< 5)) ||| (b &&& 31)) >>> 11) &&& 31
      = r &&& 31 := by
    apply Nat.eq_of_testBit_eq
    intro i
    have e1 : 11 + i - 11 = i := by omega
    have e2 : 11 + i - 5 = 6 + i := by omega
    have d1 : decide (11 ≤ 11 + i) = true := decide_eq_true (by omega)
    have d2 : decide (5 ≤ 11 + i) = true := decide_eq_true (by omega)
    have d3 : decide (6 + i < 6) = false := decide_eq_false (by omega)
    have d4 : decide (11 + i < 5) = false := decide_eq_false (by omega)
    rw [show (31 : ℕ) = 2 ^ 5 - 1 by norm_num, show (63 : ℕ) = 2 ^ 6 - 1 by norm_num]
    simp only [Nat.testBit_and, Nat.testBit_or, Nat.testBit_shiftRight, Nat.testBit_shiftLeft,
      Nat.testBit_two_pow_sub_one, ge_iff_le, e1, e2, d1, d2, d3, d4, Bool.true_and,
      Bool.and_false, Bool.false_and, Bool.or_false]
    cases hdec : decide (i < 5) <;> simp [hdec]
  simp only [Rgb565.red, Rgb565.from_rgb, hx]
  exact Nat.mod_eq_of_lt (lt_of_le_of_lt Nat.and_le_right (by norm_num))

/-- Bit-level extraction of the green field of `Rgb565`. -/
theorem rgb565_green_extract (r g b : ℕ) : (Rgb565.from_rgb r g b).green = g &&& 0x3F := by
  have hx : (((((r &&& 31) <<< 11) ||| ((g &&& 63) <<< 5)) ||| (b &&& 31)) >>> 5) &&& 63
      = g &&& 63 := by
    apply Nat.eq_of_testBit_eq
    intro i
    by_cases hi : i < 6
    · have e1 : 5 + i - 5 = i := by omega
      have d1 : decide (11 ≤ 5 + i) = false := decide_eq_false (by omega)
      have d2 : decide (5 ≤ 5 + i) = true := decide_eq_true (by omega)
      have d3 : decide (5 + i < 5) = false := decide_eq_false (by omega)
      rw [show (31 : ℕ) = 2 ^ 5 - 1 by norm_num, show (63 : ℕ) = 2 ^ 6 - 1 by norm_num]
      simp only [Nat.testBit_and, Nat.testBit_or, Nat.testBit_shiftRight, Nat.testBit_shiftLeft,
        Nat.testBit_two_pow_sub_one, ge_iff_le, e1, d1, d2, d3, Bool.true_and,
        Bool.and_false, Bool.false_and, Bool.false_or, Bool.or_false]
      cases hdec : decide (i < 6) <;> simp [hdec]
    · have d0 : decide (i < 6) = false := decide_eq_false hi
      rw [show (31 : ℕ) = 2 ^ 5 - 1 by norm_num, show (63 : ℕ) = 2 ^ 6 - 1 by norm_num]
      simp only [Nat.testBit_and, Nat.testBit_two_pow_sub_one, d0, Bool.and_false]
  simp only [Rgb565.green, Rgb565.from_rgb, hx]
  exact Nat.mod_eq_of_lt (lt_of_le_of_lt Nat.and_le_right (by norm_num))

/-- Bit-level extraction of the blue field of `Rgb565`. -/
theorem rgb565_blue_extract (r g b : ℕ) : (Rgb565.from_rgb r g b).blue = b &&& 0x1F := by
  have hx : (((((r &&& 31) <<< 11) ||| ((g &&& 63) <<< 5)) ||| (b &&& 31)) >>> 0) &&& 31
      = b &&& 31 := by
    apply Nat.eq_of_testBit_eq
    intro i
    by_cases hi : i < 5
    · have d1 : decide (11 ≤ i) = false := decide_eq_false (by omega)
      have d2 : decide (5 ≤ i) = false := decide_eq_false (by omega)
      have e0 : 0 + i = i := by omega
      rw [show (31 : ℕ) = 2 ^ 5 - 1 by norm_num, show (63 : ℕ) = 2 ^ 6 - 1 by norm_num]
      simp only [Nat.testBit_and, Nat.testBit_or, Nat.testBit_shiftRight, Nat.testBit_shiftLeft,
        Nat.testBit_two_pow_sub_one, ge_iff_le, e0, d1, d2, Bool.false_and, Bool.false_or]
      cases hdec : decide (i < 5) <;> simp [hdec]
    · have d0 : decide (i < 5) = false := decide_eq_false hi
      rw [show (31 : ℕ) = 2 ^ 5 - 1 by norm_num, show (63 : ℕ) = 2 ^ 6 - 1 by norm_num]
      simp only [Nat.testBit_and, Nat.testBit_shiftRight, Nat.testBit_two_pow_sub_one, d0,
        Bool.and_false]
  simp only [Rgb565.blue, Rgb565.from_rgb, hx]
  exact Nat.mod_eq_of_lt (lt_of_le_of_lt Nat.and_le_right (by norm_num))

/-- Bit-level extraction of the always-set alpha bit of `Argb1555::from_rgb`. -/
theorem argb1555_alpha_extract (r g b : ℕ) : (Argb1555.from_rgb r g b).alpha = 1 := by
  have hx : ((((32768 ||| ((r &&& 31) <<< 10)) ||| ((g &&& 31) <<< 5)) ||| (b &&& 31)) >>> 15)
      &&& 1 = 1 := by
    apply Nat.eq_of_testBit_eq
    intro i
    by_cases hi : i = 0
    · subst hi
      have d6 : decide ((15 : ℕ) = 15) = true := by decide
      rw [show (32768 : ℕ) = 2 ^ 15 by norm_num]
      simp only [Nat.testBit_and, Nat.testBit_or, Nat.testBit_shiftRight, Nat.testBit_two_pow,
        Nat.add_zero, Nat.testBit_one_zero, d6, decide_True, Bool.true_or, Bool.and_true]
    · have h1lt : (1 : ℕ) < 2 ^ i := by
        have h2 : (2 : ℕ) ^ 1 ≤ 2 ^ i := Nat.pow_le_pow_right (by norm_num) (by omega)
        omega
      have hr1 : Nat.testBit 1 i = false := Nat.testBit_lt_two_pow h1lt
      rw [Nat.testBit_and, hr1, Bool.and_false]
  simp only [Argb1555.alpha, Argb1555.from_rgb]
  norm_num [hx]

/-- Round-half-away-from-zero lands on the away integer at midpoints. -/
theorem roundAwayRat_midpoint (k : ℕ) :
    roundAwayRat ((k : ℚ) + 1 / 2) = (k : ℤ) + 1 ∧
    roundAwayRat (-((k : ℚ) + 1 / 2)) = -((k : ℤ) + 1) := by
  have hq : (0 : ℚ) ≤ (k : ℚ) + 1 / 2 := by positivity
  have hfloor : ⌊((k : ℚ) + 1 / 2) + 1 / 2⌋ = (k : ℤ) + 1 := by
    rw [show ((k : ℚ) + 1 / 2) + 1 / 2 = (((k : ℤ) + 1 : ℤ) : ℚ) by push_cast; ring,
      Int.floor_intCast]
  constructor
  · rw [roundAwayRat, if_pos hq, hfloor]
  · by_cases hz : (0 : ℚ) ≤ -((k : ℚ) + 1 / 2)
    · exfalso
      have : (0 : ℚ) < (k : ℚ) + 1 / 2 := by positivity
      linarith
    · rw [roundAwayRat, if_neg hz, neg_neg, hfloor]

/-! Claim theorems. -/

/-- C1: the claim that every packed format's clear constant is the
bit-complement of `(mask << shift)` — so that setting one component leaves
the others unchanged — fails on the code. Rgb565's red clear `0xFFE0` is the
complement of the blue field, not of `0x1F << 11 = 0xF800`: `set_red` zeroes
the blue field and leaves the old red bits in place. Likewise the green
clear `0xFF9F` fails to clear bits 7-10, so overwriting green 63 with 0
reads back 60, and Argb1555 shares both broken constants. Evaluating the
code at these failing inputs: -/
theorem C1_packed_clear_bug :
    ((Rgb565.from_rgb 0 0 31).set_red 31).blue = 0 ∧
    (Rgb565.from_rgb 0 0 31).blue = 31 ∧
    ((Rgb565.from_rgb 31 63 31).set_green 0).green = 60 ∧
    ((Rgb565.from_rgb 31 63 31).set_green 0).red = 31 ∧
    ((Argb1555.from_rgb 0 0 31).set_red 31).blue = 0 ∧
    (Argb1555.from_rgb 0 0 31).blue = 31 ∧
    (0xFFFF ^^^ (0x1F <<< 11) : ℕ) = 0x07FF ∧
    ((Argb4444.from_argb 15 1 2 3).set_red 9).blue = 3 ∧
    ((Argb4444.from_argb 15 1 2 3).set_red 9).green = 2 ∧
    ((Argb4444.from_argb 15 1 2 3).set_red 9).alpha = 15 ∧
    ((Argb4444.from_argb 15 1 2 3).set_red 9).red = 9 := by
  decide

/-- C2: the claim that every single-channel convenience constructor of the
composite alpha wrappers yields alpha `A::MAX` fails on the code:
`AlphaLast::new_red` omits the `set_alpha(A::MAX)` call that its five
siblings perform, so with `A = u8` and `C = Rgb888` it leaves alpha at the
default 0 while `new_green`/`new_blue` and all three `AlphaFirst`
constructors return 255. -/
theorem C2_alphalast_new_red_bug :
    (AlphaLast.new_red (0 : ℕ) Rgb888.default (255 : ℕ) Rgb888.set_red 255).alpha = 0 ∧
    (AlphaLast.new_red (0 : ℕ) Rgb888.default (255 : ℕ) Rgb888.set_red 255).color
      = ⟨255, 0, 0⟩ ∧
    (AlphaLast.new_green (0 : ℕ) Rgb888.default (255 : ℕ) Rgb888.set_green 255).alpha = 255 ∧
    (AlphaLast.new_blue (0 : ℕ) Rgb888.default (255 : ℕ) Rgb888.set_blue 255).alpha = 255 ∧
    (AlphaFirst.new_red (0 : ℕ) Rgb888.default (255 : ℕ) Rgb888.set_red 255).alpha = 255 ∧
    (AlphaFirst.new_green (0 : ℕ) Rgb888.default (255 : ℕ) Rgb888.set_green 255).alpha = 255 ∧
    (AlphaFirst.new_blue (0 : ℕ) Rgb888.default (255 : ℕ) Rgb888.set_blue 255).alpha = 255 := by
  decide

/-- C3: the claim that `NormF32::new` returns `None` for every input outside
`[0, 1]`, including NaN, fails on the code: the check
`value < 0.0 || value > 1.0` is false for NaN (IEEE comparisons), so
`new(NaN)` returns `Some(NormF32(NaN))` even though NaN is not in the range,
while ordinary out-of-range and in-range inputs behave as claimed. -/
theorem C3_norm_new_nan_bug :
    NormF32.new .nan = some ⟨.nan⟩ ∧
    NormF64.new .nan = some ⟨.nan⟩ ∧
    inRange01 .nan = false ∧
    NormF32.new (.fin (-(1 / 10))) = none ∧
    NormF32.new (.fin (11 / 10)) = none ∧
    NormF32.new (.fin (1 / 2)) = some ⟨.fin (1 / 2)⟩ ∧
    NormF64.new (.fin (-(1 / 10))) = none := by
  decide

/-- C4 (counterexample): `new_clamped(NaN)` passes NaN through the
comparison-based clamp and returns a value whose inner float is NaN — a
deterministic result but not one lying in `[0, 1]`, contradicting the
claim's "NaN input yields a deterministic in-range result". -/
theorem C4_counterexample :
    (NormF32.new_clamped .nan).val = .nan ∧
    inRange01 (NormF32.new_clamped .nan).val = false ∧
    (NormF64.new_clamped .nan).val = .nan ∧
    inRange01 (NormF64.new_clamped .nan).val = false := by
  decide

/-- C4 (amended): for every non-NaN f32 input, `new_clamped` succeeds with
an inner float in `[0, 1]`: inputs below 0.0 produce 0.0, inputs above 1.0
produce 1.0, and in-range inputs pass through unchanged; likewise
`NormF64::new_clamped`. (NaN input deterministically yields NaN, which is
not in range — see the counterexample.) -/
theorem C4_new_clamped_amended (x : GFloat) (hx : x ≠ .nan) :
    inRange01 (NormF32.new_clamped x).val = true ∧
    (x.blt (.fin 0) = true → (NormF32.new_clamped x).val = .fin 0) ∧
    (GFloat.blt (.fin 1) x = true → (NormF32.new_clamped x).val = .fin 1) ∧
    (inRange01 x = true → (NormF32.new_clamped x).val = x) ∧
    inRange01 (NormF64.new_clamped x).val = true ∧
    (x.blt (.fin 0) = true → (NormF64.new_clamped x).val = .fin 0) ∧
    (GFloat.blt (.fin 1) x = true → (NormF64.new_clamped x).val = .fin 1) ∧
    (inRange01 x = true → (NormF64.new_clamped x).val = x) := by
  obtain ⟨h1, h2, h3, h4⟩ := clamp01_spec x hx
  exact ⟨h1, h2, h3, h4, h1, h2, h3, h4⟩

/-- C4 (witness): the amended theorem applied at the concrete input -0.1. -/
theorem C4_witness : (NormF32.new_clamped (.fin (-(1 / 10)))).val = .fin 0 :=
  (C4_new_clamped_amended (.fin (-(1 / 10))) (by decide)).2.1 (by decide)

/-- C5: converting each domain's MIN and MAX into every other domain and
back returns exactly MIN and MAX, together with the claim's listed
normalization identities. -/
theorem C5_roundtrip_extremes :
    (∀ a b : Domain, (a.minVal.convertTo b).convertTo a = a.minVal ∧
      (a.maxVal.convertTo b).convertTo a = a.maxVal) ∧
    u8_to_normal_f32 0 = .fin 0 ∧
    u8_to_normal_f32 255 = .fin 1 ∧
    f32_to_scaled_u8 (.fin 1) = 255 ∧
    f32_to_scaled_u8 (.fin 0) = 0 := by
  refine ⟨by decide, by decide, by decide, by decide, by decide⟩

/-- C6 (counterexample): the three rounding backends are not identical and
the fallback does not always return the nearest integral value. At the
largest f32 below 0.5 (and the analogous f64 input) the fallback's
`value + 0.5` rounds up to 1.0 before truncation, so it returns 1.0 where
std and libm return the nearest integral value 0.0. -/
theorem C6_counterexample :
    fallback_round_f32 (.fin (16777215 / 33554432)) = .fin 1 ∧
    round_f32_std (.fin (16777215 / 33554432)) = .fin 0 ∧
    round_f32_libm (.fin (16777215 / 33554432)) = .fin 0 ∧
    fallback_round_f64 (.fin (9007199254740991 / 18014398509481984)) = .fin 1 ∧
    round_f64_std (.fin (9007199254740991 / 18014398509481984)) = .fin 0 := by
  decide

/-- C6 (amended): std and libm implement round-half-away-from-zero, and the
fallback agrees with them on every representable midpoint `k + 0.5` and
`-(k + 0.5)` (every `k < 2^23` for f32 and every `k < 2^52` for f64, which
covers all midpoints representable in each format), moving away from zero;
but the fallback is not nearest-integral on every finite input: see the
counterexample, and beyond i32/i64 range its truncating cast saturates, so
at 2^32 (f32) and 2^64 (f64) it returns 2^31 and 2^63 where std returns the
input unchanged. -/
theorem C6_rounding_amended :
    (∀ k : ℕ, k < 2 ^ 23 →
      round_f32_std (.fin ((k : ℚ) + 1 / 2)) = .fin ((k : ℚ) + 1) ∧
      round_f32_libm (.fin ((k : ℚ) + 1 / 2)) = .fin ((k : ℚ) + 1) ∧
      round_f32_std (.fin (-((k : ℚ) + 1 / 2))) = .fin (-((k : ℚ) + 1)) ∧
      fallback_round_f32 (.fin ((k : ℚ) + 1 / 2)) = .fin ((k : ℚ) + 1) ∧
      fallback_round_f32 (.fin (-((k : ℚ) + 1 / 2))) = .fin (-((k : ℚ) + 1))) ∧
    (∀ k : ℕ, k < 2 ^ 52 →
      round_f64_std (.fin ((k : ℚ) + 1 / 2)) = .fin ((k : ℚ) + 1) ∧
      round_f64_libm (.fin ((k : ℚ) + 1 / 2)) = .fin ((k : ℚ) + 1) ∧
      round_f64_std (.fin (-((k : ℚ) + 1 / 2))) = .fin (-((k : ℚ) + 1)) ∧
      fallback_round_f64 (.fin ((k : ℚ) + 1 / 2)) = .fin ((k : ℚ) + 1) ∧
      fallback_round_f64 (.fin (-((k : ℚ) + 1 / 2))) = .fin (-((k : ℚ) + 1))) ∧
    fallback_round_f32 (.fin (2 ^ 32)) = .fin (2 ^ 31) ∧
    round_f32_std (.fin (2 ^ 32)) = .fin (2 ^ 32) ∧
    fallback_round_f64 (.fin (2 ^ 64)) = .fin (2 ^ 63) ∧
    round_f64_std (.fin (2 ^ 64)) = .fin (2 ^ 64) := by
  have hstd : ∀ k : ℕ,
      GFloat.roundAway (.fin ((k : ℚ) + 1 / 2)) = .fin ((k : ℚ) + 1) ∧
      GFloat.roundAway (.fin (-((k : ℚ) + 1 / 2))) = .fin (-((k : ℚ) + 1)) := by
    intro k
    obtain ⟨hmp, hmn⟩ := roundAwayRat_midpoint k
    have hcp : ((((k : ℤ) + 1 : ℤ)) : ℚ) = (k : ℚ) + 1 := by push_cast; ring
    have hcn : (((-((k : ℤ) + 1) : ℤ)) : ℚ) = -((k : ℚ) + 1) := by push_cast; ring
    constructor
    · rw [show GFloat.roundAway (.fin ((k : ℚ) + 1 / 2))
          = .fin ((roundAwayRat ((k : ℚ) + 1 / 2) : ℤ) : ℚ) from rfl, hmp, hcp]
    · rw [show GFloat.roundAway (.fin (-((k : ℚ) + 1 / 2)))
          = .fin ((roundAwayRat (-((k : ℚ) + 1 / 2)) : ℤ) : ℚ) from rfl, hmn]
      rw [show ((-((k : ℤ) + 1) : ℤ) : ℚ) = -((k : ℚ) + 1) from hcn]
  refine ⟨fun k hk => ?_, fun k hk => ?_, by decide, by decide, by decide, by decide⟩
  · obtain ⟨hp, hn⟩ := hstd k
    obtain ⟨hf32p, hf32n⟩ := fallback_f32_midpoint k hk
    exact ⟨hp, hp, hn, hf32p, hf32n⟩
  · obtain ⟨hp, hn⟩ := hstd k
    obtain ⟨hf64p, hf64n⟩ := fallback_f64_midpoint k hk
    exact ⟨hp, hp, hn, hf64p, hf64n⟩

/-- C6 (witness): the amended theorem applied at the midpoint 1.5. -/
theorem C6_witness : fallback_round_f32 (.fin ((1 : ℚ) + 1 / 2)) = .fin ((1 : ℚ) + 1) :=
  (C6_rounding_amended.1 1 (by norm_num)).2.2.2.1

/-- C7: for every f32/f64 input, the `from_normalized` conversions equal
the claim's formula round-half-away-from-zero(clamp(v,0,1) * MAX) converted
with the saturating integer cast, for u8 (MAX = 255) and u16
(MAX = 65535). -/
theorem C7_from_normalized_clamping :
    (∀ v : GFloat, u8_from_normalized_f32 v = claim_from_normalized f32fmt 255 v) ∧
    (∀ v : GFloat, u16_from_normalized_f32 v = claim_from_normalized f32fmt 65535 v) ∧
    (∀ v : GFloat, u8_from_normalized_f64 v = claim_from_normalized f64fmt 255 v) ∧
    (∀ v : GFloat, u16_from_normalized_f64 v = claim_from_normalized f64fmt 65535 v) := by
  refine ⟨fun v => ?_, fun v => ?_, fun v => ?_, fun v => ?_⟩
  · have h := from_normalized_eq_claim f32fmt f32_hemin f32_hmax 8 (by norm_num) (by decide)
      255 (by norm_num) v
    simpa [u8_from_normalized_f32, round_f32, round_f32_std] using h
  · have h := from_normalized_eq_claim f32fmt f32_hemin f32_hmax 16 (by norm_num) (by decide)
      65535 (by norm_num) v
    simpa [u16_from_normalized_f32, round_f32, round_f32_std] using h
  · have h := from_normalized_eq_claim f64fmt f64_hemin f64_hmax 8 (by norm_num) (by decide)
      255 (by norm_num) v
    simpa [u8_from_normalized_f64, round_f64, round_f64_std] using h
  · have h := from_normalized_eq_claim f64fmt f64_hemin f64_hmax 16 (by norm_num) (by decide)
      65535 (by norm_num) v
    simpa [u16_from_normalized_f64, round_f64, round_f64_std] using h

/-- C8: `Rgb565::from_rgb` stores only the low field-width bits of each
8-bit input and the getters return exactly those bits zero-extended, with
no scaling or replication; in particular 255 into the 5-bit red field reads
back as 31. -/
theorem C8_rgb565_lossy_narrowing :
    (∀ r g b : Fin 256,
      (Rgb565.from_rgb r.val g.val b.val).red = r.val &&& 0x1F ∧
      (Rgb565.from_rgb r.val g.val b.val).green = g.val &&& 0x3F ∧
      (Rgb565.from_rgb r.val g.val b.val).blue = b.val &&& 0x1F) ∧
    (Rgb565.from_rgb 255 0 0).red = 31 := by
  refine ⟨fun r g b => ⟨rgb565_red_extract _ _ _, rgb565_green_extract _ _ _,
    rgb565_blue_extract _ _ _⟩, by decide⟩

/-- C9: `u8::to_scaled_u16` computes exactly `257 * v` for every u8 value,
and the u8 → u16 → u8 round trip is the identity on all 256 values. -/
theorem C9_u8_u16_scaling_exact :
    (∀ v : Fin 256, u8_to_scaled_u16 v.val = 257 * v.val) ∧
    (∀ v : Fin 256, u16_to_scaled_u8 (u8_to_scaled_u16 v.val) = v.val) := by
  constructor <;> decide

/-- C10: `Argb1555::from_rgb` always sets the 1-bit alpha field, so the
resulting color is fully opaque for every combination of inputs. -/
theorem C10_argb1555_from_rgb_opaque (r g b : ℕ) :
    (Argb1555.from_rgb r g b).alpha = 1 :=
  argb1555_alpha_extract r g b

end Gem
